import Mathlib

/-!
# Machine-bound licensing: secure packet codec and offline license check

A shallow embedding of `secure_transport_cpp.cpp` (packet creation, signing,
serialisation, verification) and `win_product.cpp` (license blob generation
and offline verification), followed by the properties proved about them.

Conventions of the embedding.

* A `std::string` is the list of its `char`s (`Str`).
* An `int64_t` is an `Int`; the one place where the program subtracts two of
  them (`currentTime - timestamp`) is modelled with two's-complement
  wrap-around (`sub64`), which is what the compiled code does when the exact
  difference does not fit in 64 bits.
* A C++ function that can throw returns `Except CppException _`; `.error e`
  means that the exception `e` leaves the function.
* The process-wide `s_appSecret`, the clock (`std::time(nullptr)`), the random
  bytes (`RAND_bytes`) and the file system are passed explicitly.
* OpenSSL and the Windows CryptoAPI are collaborators: the digests they compute
  are parameters (`Crypto`, `HashProvider`); the code around them (message
  layout, hex rendering, comparisons) is embedded as written.
-/

namespace ComputerId

/-! ## Strings and 64-bit integers -/

/-- A `std::string`, as the list of its characters. -/
abbrev Str := List Char

/-- Exceptions of the C++ standard library that the embedded code can raise. -/
inductive CppException where
  | invalid_argument
  | out_of_range
  deriving DecidableEq, Repr

instance {ε α : Type} [DecidableEq ε] [DecidableEq α] : DecidableEq (Except ε α)
  | .ok a, .ok b => if h : a = b then isTrue (by rw [h]) else isFalse (fun h' => h (by cases h'; rfl))
  | .error a, .error b =>
    if h : a = b then isTrue (by rw [h]) else isFalse (fun h' => h (by cases h'; rfl))
  | .ok _, .error _ => isFalse (fun h => by cases h)
  | .error _, .ok _ => isFalse (fun h => by cases h)

/-- The values an `int64_t` can hold. -/
def inInt64 (x : Int) : Prop := -(2 : Int) ^ 63 ≤ x ∧ x < (2 : Int) ^ 63

instance (x : Int) : Decidable (inInt64 x) := by
  unfold inInt64; exact inferInstance

/-- Reduction of an exact integer to the `int64_t` with the same low 64 bits. -/
def wrapInt64 (x : Int) : Int := (x + (2 : Int) ^ 63) % (2 : Int) ^ 64 - (2 : Int) ^ 63

/-- The `int64_t` subtraction `a - b` as the machine performs it. -/
def sub64 (a b : Int) : Int := wrapInt64 (a - b)

/-- The character `'0' + d` for a decimal digit `d`. -/
def digitChar (d : Nat) : Char := Char.ofNat (48 + d)

/-- Decimal digits of `n`, least significant first; `fuel` bounds the number of
digits produced (`n + 1` always suffices). -/
def decimalRev : Nat → Nat → List Char
  | 0, _ => []
  | fuel + 1, n =>
    if n < 10 then [digitChar n] else digitChar (n % 10) :: decimalRev fuel (n / 10)

/-- Decimal rendering of a natural number, most significant digit first. -/
def natToString (n : Nat) : Str := (decimalRev (n + 1) n).reverse

/-- The function `std::to_string(long long)`: decimal digits, preceded by `-`
for a negative value. -/
def to_string (x : Int) : Str :=
  if x < 0 then '-' :: natToString x.natAbs else natToString x.natAbs

/-- The predicate `isspace` of the C locale. -/
def isspace (c : Char) : Bool :=
  c = ' ' || c = '\t' || c = '\n' || c = '\x0b' || c = '\x0c' || c = '\r'

/-- The predicate `isdigit`. -/
def isdigit (c : Char) : Bool := decide (48 ≤ c.toNat) && decide (c.toNat ≤ 57)

/-- Value of a run of decimal digits, read left to right. -/
def digitsValue (ds : List Char) : Nat :=
  ds.foldl (fun acc c => acc * 10 + (c.toNat - 48)) 0

/-- Splits an optional sign off the front of the text, as `strtoll` does:
the flag is `true` when the sign is `-`. -/
def splitSign : Str → Bool × Str
  | '-' :: rest => (true, rest)
  | '+' :: rest => (false, rest)
  | s => (false, s)

/-- The function `std::stoll(str)` (base 10, no position out-parameter): skips
leading white space, reads an optional sign and the longest run of digits,
ignores whatever follows; throws `std::invalid_argument` when there is no
digit to convert and `std::out_of_range` when the value does not fit in
`long long`. -/
def stoll (s : Str) : Except CppException Int :=
  let signed := splitSign (s.dropWhile isspace)
  let ds := signed.2.takeWhile isdigit
  if ds.isEmpty then .error .invalid_argument
  else
    let v : Int := if signed.1 then -(digitsValue ds : Int) else (digitsValue ds : Int)
    if inInt64 v then .ok v else .error .out_of_range

/-- The function `std::string::find(ch, pos)` on the text that starts at index
`i`: index of the first occurrence of `c`, `none` for `npos`. -/
def findAux (c : Char) : Str → Nat → Option Nat
  | [], _ => none
  | x :: xs, i => if x = c then some i else findAux c xs (i + 1)

/-- The function `std::string::find(ch, pos)`: index of the first occurrence of
`c` at or after `pos`, `none` for `npos`. -/
def find (s : Str) (c : Char) (pos : Nat) : Option Nat := findAux c (s.drop pos) pos

/-- The function `std::string::substr(pos, len)` for `pos ≤ size()`, which is
the case at every call in `parseJson` (`pos` is one past an index returned by
`find`). -/
def substr (s : Str) (pos len : Nat) : Str := (s.drop pos).take len

/-! ## `std::map<std::string, std::string>` -/

/-- The order `std::less<std::string>`: lexicographic comparison of the
characters. -/
def strLt : Str → Str → Bool
  | [], [] => false
  | [], _ :: _ => true
  | _ :: _, [] => false
  | a :: as, b :: bs =>
    if a.toNat < b.toNat then true
    else if b.toNat < a.toNat then false
    else strLt as bs

/-- A `std::map<std::string, std::string>`: its entries in iteration order
(ascending keys). -/
abbrev StdMap := List (Str × Str)

/-- The assignment `m[k] = v`: replaces the value of an equivalent key, or
inserts the entry at its place in the key order. -/
def StdMap.assign : StdMap → Str → Str → StdMap
  | [], k, v => [(k, v)]
  | (k', v') :: rest, k, v =>
    if strLt k k' then (k, v) :: (k', v') :: rest
    else if strLt k' k then (k', v') :: StdMap.assign rest k v
    else (k', v) :: rest

/-- The value read by `m[k]`: the stored value, or the empty string that
`operator[]` inserts for a key that is absent. -/
def StdMap.at : StdMap → Str → Str
  | [], _ => []
  | (k', v') :: rest, k =>
    if strLt k k' then []
    else if strLt k' k then StdMap.at rest k
    else v'

/-! ## Simplified JSON (`buildJson`, `parseJson`) -/

/-- The loop of `buildJson`: `first` is the flag of the same name. -/
def buildJsonLoop : Bool → List (Str × Str) → Str
  | _, [] => []
  | first, (k, v) :: rest =>
    (if first then [] else [',']) ++ ['"'] ++ k ++ ['"', ':', '"'] ++ v ++ ['"']
      ++ buildJsonLoop false rest

/-- The function `buildJson`: every value is written as a quoted string, with no
escaping. -/
def buildJson (data : StdMap) : Str := ['{'] ++ buildJsonLoop true data ++ ['}']

/-- The `while` loop of `parseJson`, from scan position `pos` with the entries
collected so far; `fuel` bounds the number of iterations. -/
def parseJsonLoop (json : Str) : Nat → Nat → StdMap → StdMap
  | 0, _, result => result
  | fuel + 1, pos, result =>
    if pos < json.length then
      match find json '"' pos with
      | none => result
      | some keyStart =>
        match find json '"' (keyStart + 1) with
        | none => result
        | some keyEnd =>
          let key := substr json (keyStart + 1) (keyEnd - keyStart - 1)
          match find json '"' (keyEnd + 1) with
          | none => result
          | some valueStart =>
            match find json '"' (valueStart + 1) with
            | none => result
            | some valueEnd =>
              let value := substr json (valueStart + 1) (valueEnd - valueStart - 1)
              parseJsonLoop json fuel (valueEnd + 1) (result.assign key value)
    else result

/-- The function `parseJson`. Every iteration that continues moves the scan
position forward by at least four characters, so `json.length + 1` iterations
are never exhausted (`parseJsonLoop_fuel`). -/
def parseJson (json : Str) : StdMap := parseJsonLoop json (json.length + 1) 0 []

/-! ## Collaborators: OpenSSL -/

/-- An `unsigned char`. -/
abbrev Byte := Fin 256

/-- A SHA-256 sized digest: `SHA256_DIGEST_LENGTH` = 32 bytes. -/
structure Digest where
  bytes : List Byte
  size_eq : bytes.length = 32
  deriving DecidableEq

/-- The OpenSSL routines the program calls. -/
structure Crypto where
  /-- The call `HMAC(EVP_sha256(), key, key_len, msg, msg_len, nullptr, nullptr)`. -/
  hmacSha256 : Str → Str → Digest
  /-- The calls `SHA256_Init`, `SHA256_Update`, `SHA256_Final`. -/
  sha256 : Str → Digest
  /-- What the Base64 `BIO` chain holds after the data is written through it. -/
  bioBase64Write : Str → Str
  /-- The call `BIO_read` through the Base64 `BIO` chain: its return value and
  the buffer it filled. -/
  bioBase64Read : Str → Int × Str

/-- One hexadecimal digit, lower case. -/
def hexDigit (n : Nat) : Char := if n < 10 then Char.ofNat (48 + n) else Char.ofNat (87 + n)

/-- A byte as `std::hex << std::setw(2) << std::setfill('0')` prints it. -/
def hexByte (b : Byte) : Str := [hexDigit (b.val / 16), hexDigit (b.val % 16)]

/-- The hex rendering loop over the bytes of a digest. -/
def toHex : List Byte → Str
  | [] => []
  | b :: bs => hexByte b ++ toHex bs

/-- The function `SecureTransportCpp::base64Encode`. -/
def base64Encode (c : Crypto) (data : Str) : Str := c.bioBase64Write data

/-- The function `SecureTransportCpp::base64Decode`. -/
def base64Decode (c : Crypto) (encoded : Str) : Str :=
  let r := c.bioBase64Read encoded
  if r.1 > 0 then r.2.take r.1.toNat else []

/-! ## Signing (`SecureTransportCpp`) -/

/-- The local `message` of `generateSignature`: the text handed to HMAC. -/
def signatureMessage (s_appSecret data : Str) (timestamp : Int) : Str :=
  data ++ to_string timestamp ++ s_appSecret

/-- The function `SecureTransportCpp::generateSignature`. -/
def generateSignature (c : Crypto) (s_appSecret data : Str) (timestamp : Int) : Str :=
  toHex (c.hmacSha256 s_appSecret (signatureMessage s_appSecret data timestamp)).bytes

/-- The function `SecureTransportCpp::verifySignature`. -/
def verifySignature (c : Crypto) (s_appSecret data : Str) (timestamp : Int)
    (signature : Str) : Bool :=
  decide (signature = generateSignature c s_appSecret data timestamp)

/-- The array `charset` of `generateSalt`. -/
def charset : Str := "ABCDEFGHIJKLMNOPQRSTUVWXYZabcdefghijklmnopqrstuvwxyz0123456789".toList

/-- The constant `max_index` of `generateSalt`: `sizeof(charset) - 1`. -/
def max_index : Nat := 62

/-- The function `SecureTransportCpp::generateSalt`; `randomBytes i` is the byte
that `RAND_bytes` stored at index `i` of the 256-byte buffer. -/
def generateSalt (randomBytes : Nat → Byte) (length : Nat) : Str :=
  (List.range length).map (fun i => charset.getD ((randomBytes i).val % max_index) 'A')

/-- The text `machineCode + "|" + std::to_string(timestamp) + "|" + nonce`. -/
def combinedData (machineCode : Str) (timestamp : Int) (nonce : Str) : Str :=
  machineCode ++ ['|'] ++ to_string timestamp ++ ['|'] ++ nonce

/-! ## `SecurePacketCpp` -/

/-- The struct `SecurePacketCpp`. -/
structure SecurePacketCpp where
  machineCode : Str
  timestamp : Int
  nonce : Str
  signature : Str
  deriving DecidableEq, Repr

/-- The function `SecurePacketCpp::create`, at clock reading `now` and with the
random bytes `randomBytes`. -/
def SecurePacketCpp.create (c : Crypto) (s_appSecret : Str) (now : Int)
    (randomBytes : Nat → Byte) (machineCode : Str) : SecurePacketCpp :=
  let nonce := generateSalt randomBytes 16
  { machineCode := machineCode
    timestamp := now
    nonce := nonce
    signature := generateSignature c s_appSecret (combinedData machineCode now nonce) now }

/-- The map that `toJson` fills, in the order of its four assignments. -/
def SecurePacketCpp.toMap (p : SecurePacketCpp) : StdMap :=
  StdMap.assign
    (StdMap.assign
      (StdMap.assign
        (StdMap.assign [] "machine_code".toList p.machineCode)
        "timestamp".toList (to_string p.timestamp))
      "nonce".toList p.nonce)
    "signature".toList p.signature

/-- The function `SecurePacketCpp::toJson`. -/
def SecurePacketCpp.toJson (p : SecurePacketCpp) : Str := buildJson p.toMap

/-- The function `SecurePacketCpp::fromJson`: an exception of `std::stoll` is
not caught here and leaves the function. -/
def SecurePacketCpp.fromJson (jsonStr : Str) : Except CppException SecurePacketCpp :=
  let data := parseJson jsonStr
  match stoll (StdMap.at data "timestamp".toList) with
  | .error e => .error e
  | .ok timestamp =>
    .ok { machineCode := StdMap.at data "machine_code".toList
          timestamp := timestamp
          nonce := StdMap.at data "nonce".toList
          signature := StdMap.at data "signature".toList }

/-- The function `SecurePacketCpp::verify`, at clock reading `now`. -/
def SecurePacketCpp.verify (c : Crypto) (s_appSecret : Str) (now : Int)
    (p : SecurePacketCpp) (maxAgeSeconds : Int) : Bool :=
  if sub64 now p.timestamp > maxAgeSeconds then false
  else
    verifySignature c s_appSecret (combinedData p.machineCode p.timestamp p.nonce)
      p.timestamp p.signature

/-! ## `encryptMachineCode` / `decryptMachineCode` -/

/-- The function `SecureTransportCpp::encryptMachineCode`. -/
def encryptMachineCode (c : Crypto) (s_appSecret : Str) (now : Int)
    (randomBytes : Nat → Byte) (machineCode : Str) : Str :=
  let nonce := generateSalt randomBytes 16
  let signature := generateSignature c s_appSecret (combinedData machineCode now nonce) now
  let jsonData : StdMap :=
    StdMap.assign
      (StdMap.assign
        (StdMap.assign
          (StdMap.assign [] "machine_code".toList machineCode)
          "timestamp".toList (to_string now))
        "nonce".toList nonce)
      "signature".toList signature
  base64Encode c (buildJson jsonData)

/-- The body of the `try` block of `decryptMachineCode`. -/
def decryptMachineCodeBody (c : Crypto) (s_appSecret : Str) (now : Int)
    (encryptedData : Str) (maxAgeSeconds : Int) : Except CppException Str :=
  let json := base64Decode c encryptedData
  let data := parseJson json
  let machineCode := StdMap.at data "machine_code".toList
  match stoll (StdMap.at data "timestamp".toList) with
  | .error e => .error e
  | .ok timestamp =>
    let nonce := StdMap.at data "nonce".toList
    let signature := StdMap.at data "signature".toList
    if sub64 now timestamp > maxAgeSeconds then .ok []
    else if !verifySignature c s_appSecret (combinedData machineCode timestamp nonce)
        timestamp signature then .ok []
    else .ok machineCode

/-- The function `SecureTransportCpp::decryptMachineCode`: the `try` block, and
`catch (...)` returning the empty string. -/
def decryptMachineCode (c : Crypto) (s_appSecret : Str) (now : Int)
    (encryptedData : Str) (maxAgeSeconds : Int) : Str :=
  match decryptMachineCodeBody c s_appSecret now encryptedData maxAgeSeconds with
  | .ok r => r
  | .error _ => []

/-! ## Offline license check (`win_product.cpp`) -/

/-- The Windows CryptoAPI SHA-256 provider: the digest bytes reported for an
input, or `none` when any of `CryptAcquireContext`, `CryptCreateHash`,
`CryptHashData`, `CryptGetHashParam` fails. -/
abbrev HashProvider := Str → Option (List Byte)

/-- The function `Sha256` of `win_product.cpp`: the empty string when the provider
fails, otherwise the digest bytes in hex. -/
def Sha256 (prov : HashProvider) (input : Str) : Str :=
  match prov input with
  | none => []
  | some hashData => toHex hashData

/-- The files the program can see: the content of the file that opens for
reading at a path (`none` when `is_open()` is false), and whether a path can
be opened for writing. -/
structure FileSystem where
  content : Str → Option Str
  writable : Str → Bool

/-- The file system after a file is truncated and `content` is written to it. -/
def FileSystem.write (fs : FileSystem) (path content : Str) : FileSystem :=
  { fs with content := fun p => if p = path then some content else fs.content p }

/-- The class `LicenseManager`. -/
structure LicenseManager where
  m_machineCode : Str

/-- The function `LicenseManager::VerifyLicense`. -/
def LicenseManager.VerifyLicense (prov : HashProvider) (fs : FileSystem)
    (self : LicenseManager) (licenseFilePath : Str) : Bool :=
  match fs.content licenseFilePath with
  | none => false
  | some licenseContent =>
    if licenseContent.isEmpty then false
    else
      let expectedLicense := Sha256 prov self.m_machineCode
      decide (licenseContent = expectedLicense)

/-- The function `LicenseManager::GenerateLicenseFile`: its return value and the
file system it leaves. -/
def LicenseManager.GenerateLicenseFile (prov : HashProvider) (fs : FileSystem)
    (machineCode licenseFilePath secretKey : Str) : Bool × FileSystem :=
  if machineCode.isEmpty then (false, fs)
  else
    let licenseContent := Sha256 prov (machineCode ++ secretKey)
    if fs.writable licenseFilePath then (true, fs.write licenseFilePath licenseContent)
    else (false, fs)

/-- The constant `SECRET_KEY` of `GenerateLicenseForClient`, also the default
`secretKey` of `GenerateLicenseFile`. -/
def SECRET_KEY : Str := "DEFAULT_SECRET_KEY_2026".toList

/-- The function `GenerateLicenseForClient` of `license_generator.h`: the file
system it leaves (its console output is not modelled). -/
def GenerateLicenseForClient (prov : HashProvider) (fs : FileSystem)
    (machineCode outputPath : Str) : FileSystem :=
  (LicenseManager.GenerateLicenseFile prov fs machineCode outputPath SECRET_KEY).2

/-! ## Machine code (`win_product.cpp`) and `SecureTransportCpp::sha256` -/

/-- The function `GenerateMachineCode`. The arguments `cpuId`,
`motherboardSerial`, `diskSerial` are what `GetCpuId`, `GetMotherboardSerial`
and `GetDiskSerial` return (WMI queries, empty on failure); `computerName` is
the name that `GetComputerNameA` stores, `none` when that call fails. -/
def GenerateMachineCode (prov : HashProvider) (cpuId motherboardSerial diskSerial : Str)
    (computerName : Option Str) : Str :=
  let combinedInfo := cpuId ++ ['|'] ++ motherboardSerial ++ ['|'] ++ diskSerial
  let combinedInfo :=
    if combinedInfo = ['|', '|'] then
      match computerName with
      | some name => name
      | none => combinedInfo
    else combinedInfo
  Sha256 prov combinedInfo

/-- The function `SecureTransportCpp::sha256`. -/
def sha256 (c : Crypto) (input : Str) : Str := toHex (c.sha256 input).bytes

/-! ## License protocol client (`http_client_cpp.cpp`) -/

/-- Whether the text `s` begins with `needle`. -/
def startsWith : Str → Str → Bool
  | [], _ => true
  | _ :: _, [] => false
  | a :: as, b :: bs => decide (a = b) && startsWith as bs

/-- The function `std::string::find(str, pos)` on the text that starts at index
`i`. -/
def findStrAux (needle : Str) : Str → Nat → Option Nat
  | [], i => if needle.isEmpty then some i else none
  | x :: xs, i => if startsWith needle (x :: xs) then some i else findStrAux needle xs (i + 1)

/-- The function `std::string::find(str, pos)`: index of the first occurrence of
the text `needle` at or after `pos`, `none` for `npos`. -/
def findStr (s needle : Str) (pos : Nat) : Option Nat :=
  if pos ≤ s.length then findStrAux needle (s.drop pos) pos else none

/-- The struct `HttpClientCpp::Response`. -/
structure Response where
  statusCode : Int
  body : Str
  headers : StdMap
  error : Str
  success : Bool
  deriving DecidableEq

/-- The transport collaborator: `transport url data` is the response that
`m_httpClient.post(url, data)` returns. -/
abbrev HttpTransport := Str → Str → Response

/-- One call of `m_httpClient.post(url, data)`. -/
structure HttpCall where
  url : Str
  data : Str
  deriving DecidableEq

/-- The struct `LicenseClientCpp::LicenseResponse`. -/
structure LicenseResponse where
  success : Bool
  licenseKey : Str
  message : Str
  expiresAt : Str
  error : Str
  deriving DecidableEq

/-- The struct `LicenseClientCpp::VerifyResponse`. -/
structure VerifyResponse where
  valid : Bool
  message : Str
  expiresAt : Str
  error : Str
  deriving DecidableEq

/-- The struct `LicenseClientCpp::LicenseInfo`. -/
structure LicenseInfo where
  success : Bool
  status : Str
  userInfo : Str
  createdAt : Str
  expiresAt : Str
  lastVerified : Str
  deriving DecidableEq

/-- The class `LicenseClientCpp`; its `m_httpClient` is the transport
collaborator. -/
structure LicenseClientCpp where
  m_serverUrl : Str
  deriving DecidableEq

/-- The local `searchKey` of `extractJsonValue` and `extractJsonBool`:
the key in double quotes, followed by a colon. -/
def searchKey (key : Str) : Str := ['"'] ++ key ++ ['"', ':']

/-- The function `extractJsonValue`. -/
def extractJsonValue (json key : Str) : Str :=
  match findStr json (searchKey key) 0 with
  | none => []
  | some pos =>
    match find json '"' (pos + (searchKey key).length) with
    | none => []
    | some valueStart =>
      match find json '"' (valueStart + 1) with
      | none => []
      | some valueEnd => substr json (valueStart + 1) (valueEnd - valueStart - 1)

/-- The function `extractJsonBool`; the position of `false` is computed by the
source and never used. -/
def extractJsonBool (json key : Str) : Bool :=
  match findStr json (searchKey key) 0 with
  | none => false
  | some pos =>
    match findStr json "true".toList pos with
    | none => false
    | some truePos => decide (truePos < pos + 20)

/-- The request body that `requestLicense` builds. -/
def requestLicenseBody (base64Packet userInfo : Str) : Str :=
  ['{'] ++ "\"secure_packet\":\"".toList ++ base64Packet ++ "\",".toList
    ++ "\"user_info\":\"".toList ++ userInfo ++ "\",".toList
    ++ "\"action\":\"request\"".toList ++ ['}']

/-- The request body that `verifyLicense` builds. -/
def verifyLicenseBody (base64Packet licenseKey : Str) : Str :=
  ['{'] ++ "\"secure_packet\":\"".toList ++ base64Packet ++ "\",".toList
    ++ "\"license_key\":\"".toList ++ licenseKey ++ "\",".toList
    ++ "\"action\":\"verify\"".toList ++ ['}']

/-- The request body that `getLicenseInfo` builds. -/
def getLicenseInfoBody (base64Packet : Str) : Str :=
  ['{'] ++ "\"secure_packet\":\"".toList ++ base64Packet ++ "\",".toList
    ++ "\"action\":\"info\"".toList ++ ['}']

/-- The text `base64Packet` of the three operations: the Base64 encoding of
`toJson()` of a packet created from the machine code. -/
def securePacketBase64 (c : Crypto) (s_appSecret : Str) (now : Int)
    (randomBytes : Nat → Byte) (machineCode : Str) : Str :=
  base64Encode c (SecurePacketCpp.create c s_appSecret now randomBytes machineCode).toJson

/-- The function `LicenseClientCpp::requestLicense`: its result, and the calls
of `m_httpClient.post` it made. -/
def LicenseClientCpp.requestLicense (c : Crypto) (s_appSecret : Str) (now : Int)
    (randomBytes : Nat → Byte) (transport : HttpTransport) (self : LicenseClientCpp)
    (machineCode userInfo : Str) : LicenseResponse × List HttpCall :=
  let base64Packet := securePacketBase64 c s_appSecret now randomBytes machineCode
  let requestBody := requestLicenseBody base64Packet userInfo
  let url := self.m_serverUrl ++ "/license/request".toList
  let response := transport url requestBody
  let result : LicenseResponse :=
    if response.success then
      { success := extractJsonBool response.body "success".toList
        licenseKey := extractJsonValue response.body "license_key".toList
        message := extractJsonValue response.body "message".toList
        expiresAt := extractJsonValue response.body "expires_at".toList
        error := [] }
    else
      { success := false, licenseKey := [], message := response.error, expiresAt := [],
        error := [] }
  (result, [{ url := url, data := requestBody }])

/-- The function `LicenseClientCpp::verifyLicense`: its result, and the calls of
`m_httpClient.post` it made. -/
def LicenseClientCpp.verifyLicense (c : Crypto) (s_appSecret : Str) (now : Int)
    (randomBytes : Nat → Byte) (transport : HttpTransport) (self : LicenseClientCpp)
    (machineCode licenseKey : Str) : VerifyResponse × List HttpCall :=
  let base64Packet := securePacketBase64 c s_appSecret now randomBytes machineCode
  let requestBody := verifyLicenseBody base64Packet licenseKey
  let url := self.m_serverUrl ++ "/license/verify".toList
  let response := transport url requestBody
  let result : VerifyResponse :=
    if response.success then
      { valid := extractJsonBool response.body "valid".toList
        message := extractJsonValue response.body "message".toList
        expiresAt := extractJsonValue response.body "expires_at".toList
        error := [] }
    else
      { valid := false, message := response.error, expiresAt := [], error := [] }
  (result, [{ url := url, data := requestBody }])

/-- The part of `getLicenseInfo` that reads an HTTP-successful response. -/
def readLicenseInfo (body : Str) : LicenseInfo :=
  let success := extractJsonBool body "success".toList
  match findStr body "\"license_info\":".toList 0 with
  | none =>
    { success := success, status := [], userInfo := [], createdAt := [], expiresAt := [],
      lastVerified := [] }
  | some infoStart =>
    let infoJson := body.drop infoStart
    { success := success
      status := extractJsonValue infoJson "status".toList
      userInfo := extractJsonValue infoJson "user_info".toList
      createdAt := extractJsonValue infoJson "created_at".toList
      expiresAt := extractJsonValue infoJson "expires_at".toList
      lastVerified := extractJsonValue infoJson "last_verified".toList }

/-- The function `LicenseClientCpp::getLicenseInfo`: its result, and the calls
of `m_httpClient.post` it made. -/
def LicenseClientCpp.getLicenseInfo (c : Crypto) (s_appSecret : Str) (now : Int)
    (randomBytes : Nat → Byte) (transport : HttpTransport) (self : LicenseClientCpp)
    (machineCode : Str) : LicenseInfo × List HttpCall :=
  let base64Packet := securePacketBase64 c s_appSecret now randomBytes machineCode
  let requestBody := getLicenseInfoBody base64Packet
  let url := self.m_serverUrl ++ "/license/info".toList
  let response := transport url requestBody
  let result : LicenseInfo :=
    if response.success then readLicenseInfo response.body
    else
      { success := false, status := [], userInfo := [], createdAt := [], expiresAt := [],
        lastVerified := [] }
  (result, [{ url := url, data := requestBody }])

/-! ## Qt secure client (`secure_transport.cpp`, `qt_secure_license_client.cpp`) -/

/-- A `QJsonValue`, for the two kinds of value this program stores. -/
inductive QJsonValue where
  | string (s : Str)
  | number (n : Int)
  deriving DecidableEq

/-- A `QJsonObject`: its members in key order. -/
abbrev QJsonObject := List (Str × QJsonValue)

/-- The assignment `json[key] = value` on a `QJsonObject`. -/
def QJsonObject.insert : QJsonObject → Str → QJsonValue → QJsonObject
  | [], k, v => [(k, v)]
  | (k', v') :: rest, k, v =>
    if strLt k k' then (k, v) :: (k', v') :: rest
    else if strLt k' k then (k', v') :: QJsonObject.insert rest k v
    else (k', v) :: rest

/-- The member `json[key]` of a `QJsonObject`, `none` when there is no such
member. -/
def QJsonObject.value : QJsonObject → Str → Option QJsonValue
  | [], _ => none
  | (k', v') :: rest, k =>
    if strLt k k' then none
    else if strLt k' k then QJsonObject.value rest k
    else some v'

/-- The Qt library routines the program calls. -/
structure QtLib where
  /-- The call `QMessageAuthenticationCode::hash(message, key, Sha256)`. -/
  hmacSha256 : Str → Str → Digest
  /-- The call `QJsonDocument(json).toJson(QJsonDocument::Compact)`. -/
  toJsonCompact : QJsonObject → Str
  /-- The call `QJsonDocument(json).toJson()` (indented form). -/
  toJsonIndented : QJsonObject → Str
  /-- The call `QByteArray::toBase64()`. -/
  toBase64 : Str → Str
  /-- The value of the `i`-th call of `QRandomGenerator::global()->generate()`. -/
  generate : Nat → Nat

/-- The class `SecurePacket` of `secure_transport.h`. -/
structure SecurePacket where
  machineCode : Str
  timestamp : Int
  nonce : Str
  signature : Str
  deriving DecidableEq

/-- The function `SecureTransport::generateSalt`. -/
def SecureTransport.generateSalt (qt : QtLib) (length : Nat) : Str :=
  (List.range length).map (fun i => charset.getD (qt.generate i % charset.length) 'A')

/-- The function `SecureTransport::generateSignature`. -/
def SecureTransport.generateSignature (qt : QtLib) (s_appSecret data : Str)
    (timestamp : Int) : Str :=
  toHex (qt.hmacSha256 (data ++ to_string timestamp ++ s_appSecret) s_appSecret).bytes

/-- The function `SecurePacket::create`, at clock reading `now`. -/
def SecurePacket.create (qt : QtLib) (s_appSecret : Str) (now : Int) (machineCode : Str) :
    SecurePacket :=
  let nonce := SecureTransport.generateSalt qt 16
  { machineCode := machineCode
    timestamp := now
    nonce := nonce
    signature := SecureTransport.generateSignature qt s_appSecret
      (machineCode ++ ['|'] ++ to_string now ++ ['|'] ++ nonce) now }

/-- The `QJsonObject` that `SecurePacket::toJson` fills. -/
def SecurePacket.toObject (p : SecurePacket) : QJsonObject :=
  QJsonObject.insert
    (QJsonObject.insert
      (QJsonObject.insert
        (QJsonObject.insert [] "machine_code".toList (.string p.machineCode))
        "timestamp".toList (.number p.timestamp))
      "nonce".toList (.string p.nonce))
    "signature".toList (.string p.signature)

/-- The function `SecurePacket::toJson`. -/
def SecurePacket.toJson (qt : QtLib) (p : SecurePacket) : Str := qt.toJsonCompact p.toObject

/-- A request handed to `QNetworkAccessManager::post`: the URL, the headers set
on the request, the `QJsonObject` that is serialised, and the body. -/
structure QtPost where
  url : Str
  headers : List (Str × Str)
  json : QJsonObject
  body : Str
  requestType : Str

/-- The class `QtSecureLicenseClient`. -/
structure QtSecureLicenseClient where
  m_serverUrl : Str

/-- The function `QtSecureLicenseClient::sendSecurePostRequest`: the request it
posts. The clock is read at `now` by `SecurePacket::create` and at
`requestTime` for the `X-Request-Time` header. -/
def QtSecureLicenseClient.sendSecurePostRequest (qt : QtLib) (s_appSecret : Str)
    (now requestTime : Int) (self : QtSecureLicenseClient)
    (endpoint machineCode : Str) (extraData : QJsonObject) (requestType : Str) : QtPost :=
  let packet := SecurePacket.create qt s_appSecret now machineCode
  let json : QJsonObject :=
    extraData.foldl (fun j member => QJsonObject.insert j member.1 member.2)
      (QJsonObject.insert [] "secure_packet".toList (.string (packet.toJson qt)))
  { url := self.m_serverUrl ++ endpoint
    headers := [("Content-Type".toList, "application/json".toList),
      ("User-Agent".toList, "QtSecureLicenseClient/2.0".toList),
      ("X-Request-Time".toList, to_string requestTime),
      ("X-Client-Version".toList, "2.0".toList)]
    json := json
    body := qt.toJsonIndented json
    requestType := requestType }

/-- The function `QtSecureLicenseClient::requestLicense`. -/
def QtSecureLicenseClient.requestLicense (qt : QtLib) (s_appSecret : Str)
    (now requestTime : Int) (self : QtSecureLicenseClient) (machineCode userInfo : Str) :
    QtPost :=
  let extraData : QJsonObject :=
    QJsonObject.insert (QJsonObject.insert [] "user_info".toList (.string userInfo))
      "action".toList (.string "request".toList)
  self.sendSecurePostRequest qt s_appSecret now requestTime "/license/request".toList
    machineCode extraData "REQUEST_LICENSE".toList

/-- The function `QtSecureLicenseClient::verifyLicenseOnline`. -/
def QtSecureLicenseClient.verifyLicenseOnline (qt : QtLib) (s_appSecret : Str)
    (now requestTime : Int) (self : QtSecureLicenseClient) (machineCode licenseKey : Str) :
    QtPost :=
  let extraData : QJsonObject :=
    QJsonObject.insert (QJsonObject.insert [] "license_key".toList (.string licenseKey))
      "action".toList (.string "verify".toList)
  self.sendSecurePostRequest qt s_appSecret now requestTime "/license/verify".toList
    machineCode extraData "VERIFY_LICENSE".toList

/-- The function `QtSecureLicenseClient::getLicenseInfo`. -/
def QtSecureLicenseClient.getLicenseInfo (qt : QtLib) (s_appSecret : Str)
    (now requestTime : Int) (self : QtSecureLicenseClient) (machineCode : Str) : QtPost :=
  let extraData : QJsonObject := QJsonObject.insert [] "action".toList (.string "info".toList)
  self.sendSecurePostRequest qt s_appSecret now requestTime "/license/info".toList
    machineCode extraData "GET_INFO".toList

/-- The function `SecureTransportCpp::setAppSecret`, as a transition of the
process-wide `s_appSecret`. -/
def setAppSecret (_s_appSecret secret : Str) : Str := secret

/-! ## License backend (`license_backend.cpp`) -/

/-- The value of the member `LicenseClientCpp* m_client`: `nullptr`, a pointer to
a live client, or a non-null pointer whose client has been deleted. -/
inductive ClientPtr where
  | null
  | live (client : LicenseClientCpp)
  | dangling
  deriving DecidableEq

/-- The outcome of a call: it returns a value, or its behaviour is undefined
(use or deletion of an object that has already been deleted). -/
inductive Behaviour (α : Type) where
  | returns (a : α)
  | undefined
  deriving DecidableEq

/-- Sequencing of calls: nothing is known after undefined behaviour. -/
def Behaviour.bind {α β : Type} : Behaviour α → (α → Behaviour β) → Behaviour β
  | .returns a, f => f a
  | .undefined, _ => .undefined

/-- The class `LicenseBackend`. -/
structure LicenseBackend where
  m_client : ClientPtr
  m_serverUrl : Str
  deriving DecidableEq

/-- The constructor `LicenseBackend::LicenseBackend`. -/
def LicenseBackend.new : LicenseBackend := { m_client := .null, m_serverUrl := [] }

/-- The test `if (m_client)`: whether the pointer is non-null. -/
def ClientPtr.nonNull : ClientPtr → Bool
  | .null => false
  | .live _ => true
  | .dangling => true

/-- The statement `delete m_client;`: the pointer keeps its value and the client
it points to is gone; deleting a second time is undefined. -/
def ClientPtr.delete : ClientPtr → Behaviour ClientPtr
  | .null => .returns .null
  | .live _ => .returns .dangling
  | .dangling => .undefined

/-- The function `LicenseBackend::setServerUrl`: the pointer is deleted when it
is non-null and assigned only when `url` is not empty. -/
def LicenseBackend.setServerUrl (self : LicenseBackend) (url : Str) :
    Behaviour LicenseBackend :=
  let m_serverUrl := url
  let afterDelete : Behaviour ClientPtr :=
    if self.m_client.nonNull then self.m_client.delete else .returns self.m_client
  afterDelete.bind fun m_client =>
    if !url.isEmpty then
      .returns { m_client := .live { m_serverUrl := url }, m_serverUrl := m_serverUrl }
    else
      .returns { m_client := m_client, m_serverUrl := m_serverUrl }

/-- The function `LicenseBackend::requestLicense`: its result and the calls of
`m_httpClient.post` made. The model of `LicenseClientCpp::requestLicense` does
not throw, so the `catch` branch has no counterpart. -/
def LicenseBackend.requestLicense (c : Crypto) (s_appSecret : Str) (now : Int)
    (randomBytes : Nat → Byte) (transport : HttpTransport) (self : LicenseBackend)
    (machineCode userInfo : Str) : Behaviour (LicenseResponse × List HttpCall) :=
  let response : LicenseResponse :=
    { success := false, licenseKey := [], message := [], expiresAt := [], error := [] }
  if !self.m_client.nonNull then
    .returns ({ response with
      error := "Client not initialized. Please set server URL first.".toList }, [])
  else if machineCode.isEmpty then
    .returns ({ response with error := "Machine code is empty".toList }, [])
  else
    match self.m_client with
    | .live client =>
      .returns (client.requestLicense c s_appSecret now randomBytes transport
        machineCode userInfo)
    | _ => .undefined

/-- The function `LicenseBackend::verifyLicense`: its result and the calls of
`m_httpClient.post` made. -/
def LicenseBackend.verifyLicense (c : Crypto) (s_appSecret : Str) (now : Int)
    (randomBytes : Nat → Byte) (transport : HttpTransport) (self : LicenseBackend)
    (machineCode licenseKey : Str) : Behaviour (VerifyResponse × List HttpCall) :=
  let response : VerifyResponse :=
    { valid := false, message := [], expiresAt := [], error := [] }
  if !self.m_client.nonNull then
    .returns ({ response with
      error := "Client not initialized. Please set server URL first.".toList }, [])
  else if machineCode.isEmpty then
    .returns ({ response with error := "Machine code is empty".toList }, [])
  else if licenseKey.isEmpty then
    .returns ({ response with error := "License key is empty".toList }, [])
  else
    match self.m_client with
    | .live client =>
      .returns (client.verifyLicense c s_appSecret now randomBytes transport
        machineCode licenseKey)
    | _ => .undefined

/-! ## Auxiliary definitions used in the proofs and in the concrete instances -/

/-- Value of a run of decimal digits given least significant digit first. -/
def valueRev : List Char → Nat
  | [] => 0
  | ch :: rest => (ch.toNat - 48) + 10 * valueRev rest

/-- The low eight bits of a character code. -/
def byteOfChar (ch : Char) : Byte := ⟨ch.toNat % 256, Nat.mod_lt _ (by decide)⟩

/-- A stand-in digest for concrete instances: the first 32 characters of the
text, padded with zero bytes. It is not SHA-256; it only gives the theorems a
concrete collaborator to be instantiated at. -/
def sampleDigest (s : Str) : Digest :=
  ⟨(s.map byteOfChar ++ List.replicate 32 0).take 32, by simp⟩

/-- A concrete collaborator: stand-in digests, and a Base64 layer that stores
the text unchanged. -/
def sampleCrypto : Crypto where
  hmacSha256 key msg := sampleDigest (key ++ msg)
  sha256 msg := sampleDigest msg
  bioBase64Write data := data
  bioBase64Read encoded := (encoded.length, encoded)

/-- A concrete hash provider: succeeds on every input with the stand-in digest. -/
def sampleProvider : HashProvider := fun s => some (sampleDigest s).bytes

/-- A hash provider on which every CryptoAPI call fails. -/
def failingProvider : HashProvider := fun _ => none

/-- A concrete application secret. -/
def sampleSecret : Str := "S3CRET".toList

/-- A concrete sequence of random bytes. -/
def sampleRandom : Nat → Byte := fun i => ⟨(37 * i + 11) % 256, Nat.mod_lt _ (by decide)⟩

/-- The text that `verify` and `create` hand to HMAC for a packet. -/
def signedText (s_appSecret : Str) (p : SecurePacketCpp) : Str :=
  signatureMessage s_appSecret (combinedData p.machineCode p.timestamp p.nonce) p.timestamp

/-- The predicate `isalnum` of the C locale. -/
def isalnum (ch : Char) : Bool :=
  isdigit ch || (decide (65 ≤ ch.toNat) && decide (ch.toNat ≤ 90))
    || (decide (97 ≤ ch.toNat) && decide (ch.toNat ≤ 122))

/-- The predicate `isxdigit`: a hexadecimal digit of either case. -/
def isxdigit (ch : Char) : Bool :=
  isdigit ch || (decide (65 ≤ ch.toNat) && decide (ch.toNat ≤ 70))
    || (decide (97 ≤ ch.toNat) && decide (ch.toNat ≤ 102))

/-- The text `a"k":"v"` followed by `rest`: one entry as `buildJson` writes it,
after the separator `a`. -/
def jsonEntry (a k v rest : Str) : Str :=
  a ++ '"' :: (k ++ '"' :: ([':'] ++ '"' :: (v ++ '"' :: rest)))

/-- A file system with no file, in which every path can be written. -/
def sampleFs : FileSystem where
  content _ := none
  writable _ := true

/-- A file system whose only file is an empty `license.dat`. -/
def emptyLicenseFs : FileSystem where
  content p := if p = "license.dat".toList then some [] else none
  writable _ := true

/-- The sixteen lower-case hexadecimal digits. -/
def lowerHexDigits : Str := "0123456789abcdef".toList

/-- The text `text` occurs somewhere in `json`. -/
def containsText (json text : Str) : Prop := ∃ a b, json = a ++ text ++ b

/-- A transport that answers every request with the same response. -/
def constantTransport (r : Response) : HttpTransport := fun _ _ => r

/-- An HTTP-successful response (status 200) with the given body. -/
def okResponse (body : Str) : Response :=
  { statusCode := 200, body := body, headers := [], error := [], success := true }

/-- The response of a transport that failed with the given error text. -/
def failedResponse (error : Str) : Response :=
  { statusCode := 0, body := [], headers := [], error := error, success := false }

/-- A concrete client. -/
def sampleClient : LicenseClientCpp := { m_serverUrl := "https://license.example/api".toList }

/-- The text of the entries `es` as `buildJson` writes them: the first one
after the separator `a`, every further one after a comma, followed by `rest`. -/
def jsonEntries (a : Str) : List (Str × Str) → Str → Str
  | [], rest => rest
  | (k, v) :: es, rest => jsonEntry a k v (jsonEntries [','] es rest)

/-- The assignments `result[k] = v` for the entries `es`, in order. -/
def assignAll (result : StdMap) (es : List (Str × Str)) : StdMap :=
  es.foldl (fun m e => StdMap.assign m e.1 e.2) result

/-- The Base64 alphabet of RFC 4648. -/
def base64Alphabet : Str :=
  "ABCDEFGHIJKLMNOPQRSTUVWXYZabcdefghijklmnopqrstuvwxyz0123456789+/".toList

/-- The Base64 character for a 6-bit value. -/
def base64Char (n : Nat) : Char := base64Alphabet.getD n 'A'

/-- Base64 encoding (RFC 4648, with padding, no line breaks) of a byte sequence. -/
def base64Text : List Nat → Str
  | [] => []
  | [a] => [base64Char (a / 4), base64Char (a % 4 * 16), '=', '=']
  | [a, b] => [base64Char (a / 4), base64Char (a % 4 * 16 + b / 16), base64Char (b % 16 * 4), '=']
  | a :: b :: c :: rest =>
    base64Char (a / 4) :: base64Char (a % 4 * 16 + b / 16) :: base64Char (b % 16 * 4 + c / 64)
      :: base64Char (c % 64) :: base64Text rest

/-- A concrete collaborator whose Base64 layer is the RFC 4648 encoding (the
digests remain the stand-in ones). -/
def wireCrypto : Crypto :=
  { sampleCrypto with
    bioBase64Write := fun data => base64Text (data.map (fun ch => ch.toNat % 256)) }

/-- A caller's value that contains double quotes. -/
def quotedUserInfo : Str := "x\",\"action\":\"info".toList

/-- A stand-in for the members of a compact JSON text: `"key":value`, strings
in double quotes, numbers in decimal. -/
def sampleCompactMembers : Bool → QJsonObject → Str
  | _, [] => []
  | first, (k, v) :: rest =>
    (if first then [] else [',']) ++ ['"'] ++ k ++ ['"', ':']
      ++ (match v with
          | .string s => ['"'] ++ s ++ ['"']
          | .number n => to_string n)
      ++ sampleCompactMembers false rest

/-- A stand-in for Qt's compact JSON writer. -/
def sampleCompact (o : QJsonObject) : Str := ['{'] ++ sampleCompactMembers true o ++ ['}']

/-- A concrete Qt collaborator: stand-in digests and JSON writer, RFC 4648
Base64. -/
def sampleQt : QtLib where
  hmacSha256 message key := sampleDigest (key ++ message)
  toJsonCompact := sampleCompact
  toJsonIndented := sampleCompact
  toBase64 data := base64Text (data.map (fun ch => ch.toNat % 256))
  generate i := 37 * i + 11

/-- A concrete Qt client. -/
def sampleQtClient : QtSecureLicenseClient := { m_serverUrl := "https://localhost:5000/api".toList }

/-- A second concrete application secret. -/
def otherSecret : Str := "0THER".toList

/-- A file system whose only file is a `license.dat` holding the text `WRONG`. -/
def wrongLicenseFs : FileSystem where
  content p := if p = "license.dat".toList then some "WRONG".toList else none
  writable _ := true

/-- The four quote positions that one iteration of the loop of `parseJson`
finds (the locals `keyStart`, `keyEnd`, `valueStart`, `valueEnd`). -/
structure QuotePositions where
  keyStart : Nat
  keyEnd : Nat
  valueStart : Nat
  valueEnd : Nat
  deriving DecidableEq

/-- The searches of one iteration of the loop of `parseJson` at scan position
`pos`: the quote positions found, or `none` when the loop is left (by its
condition or by a `break`). -/
def parseJsonStep (json : Str) (pos : Nat) : Option QuotePositions :=
  if pos < json.length then
    match find json '"' pos with
    | none => none
    | some keyStart =>
      match find json '"' (keyStart + 1) with
      | none => none
      | some keyEnd =>
        match find json '"' (keyEnd + 1) with
        | none => none
        | some valueStart =>
          match find json '"' (valueStart + 1) with
          | none => none
          | some valueEnd => some ⟨keyStart, keyEnd, valueStart, valueEnd⟩
  else none

/-- The local `key` of the iteration that found the positions `q`. -/
def QuotePositions.key (json : Str) (q : QuotePositions) : Str :=
  substr json (q.keyStart + 1) (q.keyEnd - q.keyStart - 1)

/-- The local `value` of the iteration that found the positions `q`. -/
def QuotePositions.value (json : Str) (q : QuotePositions) : Str :=
  substr json (q.valueStart + 1) (q.valueEnd - q.valueStart - 1)

/-- The pairs `(key, value)` that the loop of `parseJson` extracts from scan
position `pos` on, in order, when the loop is left within `fuel` iterations;
`none` when it is still running after `fuel` iterations. -/
def parseJsonTrace (json : Str) : Nat → Nat → Option (List (Str × Str))
  | 0, _ => none
  | fuel + 1, pos =>
    match parseJsonStep json pos with
    | none => some []
    | some q => (parseJsonTrace json fuel (q.valueEnd + 1)).map ((q.key json, q.value json) :: ·)

/-- The value of the last pair with key `k` in a list of pairs. -/
def lastValue : List (Str × Str) → Str → Option Str
  | [], _ => none
  | (k', v') :: es, k =>
    match lastValue es k with
    | some v => some v
    | none => if k' = k then some v' else none

/-! ## Lemmas: 64-bit arithmetic and decimal text -/

theorem wrapInt64_of_inInt64 {x : Int} (h : inInt64 x) : wrapInt64 x = x := by
  unfold inInt64 at h
  unfold wrapInt64
  omega

theorem sub64_exact {a b : Int} (h : inInt64 (a - b)) : sub64 a b = a - b :=
  wrapInt64_of_inInt64 h

theorem digitChar_toNat {d : Nat} (h : d < 10) : (digitChar d).toNat = 48 + d := by
  interval_cases d <;> rfl

theorem isdigit_digitChar {d : Nat} (h : d < 10) : isdigit (digitChar d) = true := by
  simp [isdigit, digitChar_toNat h]; omega

theorem isdigit_of_mem_decimalRev : ∀ (fuel n : Nat) (ch : Char),
    ch ∈ decimalRev fuel n → isdigit ch = true := by
  intro fuel
  induction fuel with
  | zero => intro n ch h; simp [decimalRev] at h
  | succ f ih =>
    intro n ch h
    unfold decimalRev at h
    split at h
    · rename_i hlt
      simp at h; subst h; exact isdigit_digitChar hlt
    · simp at h
      rcases h with h | h
      · subst h; exact isdigit_digitChar (Nat.mod_lt _ (by decide))
      · exact ih _ _ h

theorem decimalRev_ne_nil (fuel n : Nat) : decimalRev (fuel + 1) n ≠ [] := by
  unfold decimalRev; split <;> simp

theorem digitsValue_append_singleton (l : List Char) (ch : Char) :
    digitsValue (l ++ [ch]) = digitsValue l * 10 + (ch.toNat - 48) := by
  simp [digitsValue, List.foldl_append]

theorem digitsValue_reverse (l : List Char) : digitsValue l.reverse = valueRev l := by
  induction l with
  | nil => rfl
  | cons ch rest ih =>
    rw [List.reverse_cons, digitsValue_append_singleton, ih, valueRev]; omega

theorem valueRev_decimalRev : ∀ (fuel n : Nat), n < fuel → valueRev (decimalRev fuel n) = n := by
  intro fuel
  induction fuel with
  | zero => intro n h; omega
  | succ f ih =>
    intro n h
    unfold decimalRev
    split
    · rename_i hlt
      simp [valueRev, digitChar_toNat hlt]
    · rename_i hge
      have hd : n % 10 < 10 := Nat.mod_lt _ (by decide)
      have hq : n / 10 < f := by omega
      simp [valueRev, digitChar_toNat hd, ih _ hq]
      omega

theorem digitsValue_natToString (n : Nat) : digitsValue (natToString n) = n := by
  rw [natToString, digitsValue_reverse, valueRev_decimalRev _ _ (Nat.lt_succ_self n)]

theorem isdigit_of_mem_natToString {n : Nat} {ch : Char} (h : ch ∈ natToString n) :
    isdigit ch = true := by
  rw [natToString, List.mem_reverse] at h
  exact isdigit_of_mem_decimalRev _ _ _ h

theorem natToString_ne_nil (n : Nat) : natToString n ≠ [] := by
  rw [natToString]
  simpa using decimalRev_ne_nil n n

theorem natToString_eq_cons (n : Nat) :
    ∃ d rest, natToString n = d :: rest ∧ isdigit d = true := by
  cases h : natToString n with
  | nil => exact absurd h (natToString_ne_nil n)
  | cons d rest =>
    exact ⟨d, rest, rfl, isdigit_of_mem_natToString (by rw [h]; simp)⟩

theorem natToString_injective {m n : Nat} (h : natToString m = natToString n) : m = n := by
  rw [← digitsValue_natToString m, ← digitsValue_natToString n, h]

theorem isdigit_ne_minus {ch : Char} (h : isdigit ch = true) : ch ≠ '-' := by
  rintro rfl; revert h; decide

theorem isdigit_ne_plus {ch : Char} (h : isdigit ch = true) : ch ≠ '+' := by
  rintro rfl; revert h; decide

theorem isdigit_not_isspace {ch : Char} (h : isdigit ch = true) : isspace ch = false := by
  cases hs : isspace ch with
  | false => rfl
  | true =>
    simp [isspace] at hs
    rcases hs with ((((rfl | rfl) | rfl) | rfl) | rfl) | rfl <;> revert h <;> decide

theorem to_string_injective {x y : Int} (h : to_string x = to_string y) : x = y := by
  unfold to_string at h
  obtain ⟨dx, rx, hx, hdx⟩ := natToString_eq_cons x.natAbs
  obtain ⟨dy, ry, hy, hdy⟩ := natToString_eq_cons y.natAbs
  by_cases hxn : x < 0 <;> by_cases hyn : y < 0
  · simp [hxn, hyn] at h
    have := natToString_injective h; omega
  · simp [hxn, hyn, hy] at h
    exact absurd h.1.symm (isdigit_ne_minus hdy)
  · simp [hxn, hyn, hx] at h
    exact absurd h.1 (isdigit_ne_minus hdx)
  · simp [hxn, hyn] at h
    have := natToString_injective h; omega

theorem to_string_length_pos (x : Int) : 0 < (to_string x).length := by
  unfold to_string
  obtain ⟨d, r, h, _⟩ := natToString_eq_cons x.natAbs
  split <;> simp [h]

theorem takeWhile_isdigit_natToString (n : Nat) :
    (natToString n).takeWhile isdigit = natToString n := by
  rw [List.takeWhile_eq_self_iff]
  intro ch h; exact isdigit_of_mem_natToString h

theorem stoll_to_string {x : Int} (h : inInt64 x) : stoll (to_string x) = .ok x := by
  obtain ⟨d, r, hd, hdig⟩ := natToString_eq_cons x.natAbs
  have htw := takeWhile_isdigit_natToString x.natAbs
  have hval := digitsValue_natToString x.natAbs
  unfold stoll to_string
  by_cases hx : x < 0
  · have hv : -((x.natAbs : Nat) : Int) = x := by omega
    simp only [hx, if_true]
    have hdrop : List.dropWhile isspace ('-' :: natToString x.natAbs) = '-' :: natToString x.natAbs := by
      rw [List.dropWhile_cons_of_neg]; decide
    simp only [hdrop, splitSign, htw, hval, hv, h, if_true]
    simp [hd]
  · have hv : ((x.natAbs : Nat) : Int) = x := by omega
    simp only [hx, if_false]
    have hdrop : List.dropWhile isspace (natToString x.natAbs) = natToString x.natAbs := by
      rw [hd, List.dropWhile_cons_of_neg]; simp [isdigit_not_isspace hdig]
    have hsplit : splitSign (natToString x.natAbs) = (false, natToString x.natAbs) := by
      rw [hd]
      unfold splitSign
      split
      · rename_i heq; simp at heq; exact absurd heq.1 (isdigit_ne_minus hdig)
      · rename_i heq; simp at heq; exact absurd heq.1 (isdigit_ne_plus hdig)
      · rfl
    simp only [hdrop, hsplit, htw, hval]
    simp [hd, hv, h]

/-! ## Lemmas: signature and age checks -/

theorem verifySignature_iff (c : Crypto) (S data : Str) (ts : Int) (sig : Str) :
    verifySignature c S data ts sig = true ↔ sig = generateSignature c S data ts := by
  simp [verifySignature]

theorem verify_iff_sub64 (c : Crypto) (S : Str) (now : Int) (p : SecurePacketCpp) (maxAge : Int) :
    p.verify c S now maxAge = true ↔
      sub64 now p.timestamp ≤ maxAge ∧
        p.signature = generateSignature c S (combinedData p.machineCode p.timestamp p.nonce) p.timestamp := by
  unfold SecurePacketCpp.verify
  by_cases h : sub64 now p.timestamp > maxAge
  · have h' : ¬ sub64 now p.timestamp ≤ maxAge := by omega
    simp [h, h']
  · have h' : sub64 now p.timestamp ≤ maxAge := by omega
    simp [h, h', verifySignature_iff]

theorem verify_iff_of_exact (c : Crypto) (S : Str) (now : Int) (p : SecurePacketCpp) (maxAge : Int)
    (h : inInt64 (now - p.timestamp)) :
    p.verify c S now maxAge = true ↔
      now - p.timestamp ≤ maxAge ∧
        p.signature = generateSignature c S (combinedData p.machineCode p.timestamp p.nonce) p.timestamp := by
  rw [verify_iff_sub64, sub64_exact h]

/-! ## Lemmas: hex rendering and the signed text -/

theorem hexDigit_injective : ∀ a b : Fin 16, hexDigit a.val = hexDigit b.val → a = b := by
  decide

theorem hexByte_injective {a b : Byte} (h : hexByte a = hexByte b) : a = b := by
  simp only [hexByte, List.cons.injEq, and_true] at h
  have h1 := hexDigit_injective ⟨a.val / 16, by omega⟩ ⟨b.val / 16, by omega⟩ h.1
  have h2 := hexDigit_injective ⟨a.val % 16, by omega⟩ ⟨b.val % 16, by omega⟩ h.2
  simp only [Fin.mk.injEq] at h1 h2
  apply Fin.ext; omega

theorem toHex_length (l : List Byte) : (toHex l).length = 2 * l.length := by
  induction l with
  | nil => rfl
  | cons b bs ih => simp [toHex, hexByte, ih]; omega

theorem toHex_injective : ∀ {l₁ l₂ : List Byte}, toHex l₁ = toHex l₂ → l₁ = l₂ := by
  intro l₁
  induction l₁ with
  | nil =>
    intro l₂ h
    cases l₂ with
    | nil => rfl
    | cons b bs => simp [toHex, hexByte] at h
  | cons a as ih =>
    intro l₂ h
    cases l₂ with
    | nil => simp [toHex, hexByte] at h
    | cons b bs =>
      simp only [toHex, hexByte, List.cons_append, List.nil_append, List.cons.injEq] at h
      have hab : a = b := hexByte_injective (by simp [hexByte, h.1, h.2.1])
      rw [hab, ih h.2.2]

theorem Digest.eq_of_bytes {d₁ d₂ : Digest} (h : d₁.bytes = d₂.bytes) : d₁ = d₂ := by
  cases d₁; cases d₂; simp at h; subst h; rfl

theorem signedText_eq (S : Str) (p : SecurePacketCpp) :
    signedText S p =
      p.machineCode ++ ('|' :: (to_string p.timestamp ++ ('|' :: (p.nonce ++
        (to_string p.timestamp ++ S))))) := by
  simp [signedText, signatureMessage, combinedData]

theorem signedText_timestamp_injective (S : Str) {p q : SecurePacketCpp}
    (hmc : q.machineCode = p.machineCode) (hn : q.nonce = p.nonce)
    (h : signedText S q = signedText S p) : q.timestamp = p.timestamp := by
  rw [signedText_eq, signedText_eq, hmc, hn] at h
  have h1 := List.append_cancel_left h
  simp only [List.cons.injEq, true_and] at h1
  have hlen := congrArg List.length h1
  simp only [List.length_append, List.length_cons] at hlen
  have hl : (to_string q.timestamp).length = (to_string p.timestamp).length := by omega
  exact to_string_injective (List.append_inj_left h1 hl)

theorem signedText_machineCode_injective (S : Str) {p q : SecurePacketCpp}
    (hts : q.timestamp = p.timestamp) (hn : q.nonce = p.nonce)
    (h : signedText S q = signedText S p) : q.machineCode = p.machineCode := by
  rw [signedText_eq, signedText_eq, hts, hn] at h
  exact List.append_cancel_right h

theorem signedText_nonce_injective (S : Str) {p q : SecurePacketCpp}
    (hmc : q.machineCode = p.machineCode) (hts : q.timestamp = p.timestamp)
    (h : signedText S q = signedText S p) : q.nonce = p.nonce := by
  rw [signedText_eq, signedText_eq, hmc, hts] at h
  have h1 := List.append_cancel_left h
  simp only [List.cons.injEq, true_and] at h1
  have h2 := List.append_cancel_left h1
  simp only [List.cons.injEq, true_and] at h2
  exact List.append_cancel_right h2

/-! ## Lemmas: the loop of `parseJson` -/

theorem findAux_append (c : Char) : ∀ (a rest : Str) (i : Nat), c ∉ a →
    findAux c (a ++ c :: rest) i = some (i + a.length) := by
  intro a
  induction a with
  | nil => intro rest i _; simp [findAux]
  | cons x xs ih =>
    intro rest i h
    simp only [List.mem_cons, not_or] at h
    have hx : ¬ x = c := fun e => h.1 e.symm
    rw [List.cons_append, findAux, if_neg hx, ih rest (i + 1) h.2, List.length_cons]
    exact congrArg some (by omega)

theorem findAux_none (c : Char) : ∀ (a : Str) (i : Nat), c ∉ a → findAux c a i = none := by
  intro a
  induction a with
  | nil => intro i _; rfl
  | cons x xs ih =>
    intro i h
    simp only [List.mem_cons, not_or] at h
    have hx : ¬ x = c := fun e => h.1 e.symm
    simp only [findAux, hx, if_false, ih (i + 1) h.2]

theorem findAux_bounds (c : Char) : ∀ (l : Str) (i j : Nat),
    findAux c l i = some j → i ≤ j ∧ j < i + l.length := by
  intro l
  induction l with
  | nil => intro i j h; simp [findAux] at h
  | cons x xs ih =>
    intro i j h
    rw [findAux] at h
    split at h
    · injection h with h; subst h; simp
    · have := ih _ _ h
      simp only [List.length_cons]; omega

theorem find_bounds {s : Str} {c : Char} {pos j : Nat} (h : find s c pos = some j) :
    pos ≤ j ∧ j < s.length := by
  unfold find at h
  have hb := findAux_bounds c _ _ _ h
  rw [List.length_drop] at hb
  omega

/-- Fuel beyond what the remaining text needs does not change the result of the
loop of `parseJson`: `json.length + 1` iterations are never exhausted. -/
theorem parseJsonLoop_fuel (json : Str) : ∀ (fuel pos extra : Nat) (result : StdMap),
    json.length < pos + fuel →
    parseJsonLoop json (fuel + extra) pos result = parseJsonLoop json fuel pos result := by
  intro fuel
  induction fuel with
  | zero =>
    intro pos extra result h
    cases extra with
    | zero => rfl
    | succ e =>
      have hn : ¬ pos < json.length := by omega
      simp only [Nat.zero_add, parseJsonLoop, hn, if_false]
  | succ f ih =>
    intro pos extra result h
    rw [Nat.add_right_comm, parseJsonLoop, parseJsonLoop]
    split
    · cases h1 : find json '"' pos with
      | none => rfl
      | some keyStart =>
        dsimp only
        cases h2 : find json '"' (keyStart + 1) with
        | none => rfl
        | some keyEnd =>
          dsimp only
          cases h3 : find json '"' (keyEnd + 1) with
          | none => rfl
          | some valueStart =>
            dsimp only
            cases h4 : find json '"' (valueStart + 1) with
            | none => rfl
            | some valueEnd =>
              dsimp only
              have b1 := find_bounds h1
              have b2 := find_bounds h2
              have b3 := find_bounds h3
              have b4 := find_bounds h4
              exact ih (valueEnd + 1) extra _ (by omega)
    · rfl

theorem find_of_split (s pre a rest : Str) (c : Char) (pos : Nat)
    (hs : s = pre ++ (a ++ c :: rest)) (hpos : pos = pre.length) (h : c ∉ a) :
    find s c pos = some (pos + a.length) := by
  subst hs hpos
  simp only [find, List.drop_left]
  exact findAux_append c a rest _ h

theorem find_none_of_split (s pre a : Str) (c : Char) (pos : Nat)
    (hs : s = pre ++ a) (hpos : pos = pre.length) (h : c ∉ a) :
    find s c pos = none := by
  subst hs hpos
  simp only [find, List.drop_left]
  exact findAux_none c a _ h

theorem substr_of_split (s pre a rest : Str) (pos len : Nat)
    (hs : s = pre ++ (a ++ rest)) (hpos : pos = pre.length) (hlen : len = a.length) :
    substr s pos len = a := by
  subst hs hpos hlen
  simp [substr, List.drop_left]

/-- One full iteration of the loop of `parseJson` over `a"k"m"v"`, where none
of `a`, `k`, `m`, `v` contains a double quote. -/
theorem parseJsonLoop_step (json pre a k m v rest : Str) (pos fuel : Nat)
    (result : StdMap)
    (hs : json = pre ++ (a ++ '"' :: (k ++ '"' :: (m ++ '"' :: (v ++ '"' :: rest)))))
    (hpos : pos = pre.length)
    (ha : '"' ∉ a) (hk : '"' ∉ k) (hm : '"' ∉ m) (hv : '"' ∉ v) :
    parseJsonLoop json (fuel + 1) pos result =
      parseJsonLoop json fuel (pos + a.length + k.length + m.length + v.length + 4)
        (StdMap.assign result k v) := by
  have hlt : pos < json.length := by
    rw [hs, hpos]; simp
  have f1 : find json '"' pos = some (pos + a.length) :=
    find_of_split json pre a _ '"' pos hs hpos ha
  have f2 : find json '"' (pos + a.length + 1) = some (pos + a.length + 1 + k.length) :=
    find_of_split json (pre ++ a ++ ['"']) k (m ++ '"' :: (v ++ '"' :: rest)) '"' _
      (by rw [hs]; simp)
      (by simp only [hpos, List.length_append, List.length_cons, List.length_nil]) hk
  have f3 : find json '"' (pos + a.length + 1 + k.length + 1) =
      some (pos + a.length + 1 + k.length + 1 + m.length) :=
    find_of_split json (pre ++ a ++ ['"'] ++ k ++ ['"']) m (v ++ '"' :: rest) '"' _
      (by rw [hs]; simp)
      (by simp only [hpos, List.length_append, List.length_cons, List.length_nil]) hm
  have f4 : find json '"' (pos + a.length + 1 + k.length + 1 + m.length + 1) =
      some (pos + a.length + 1 + k.length + 1 + m.length + 1 + v.length) :=
    find_of_split json (pre ++ a ++ ['"'] ++ k ++ ['"'] ++ m ++ ['"']) v rest '"' _
      (by rw [hs]; simp)
      (by simp only [hpos, List.length_append, List.length_cons, List.length_nil]) hv
  have s1 : substr json (pos + a.length + 1)
      (pos + a.length + 1 + k.length - (pos + a.length) - 1) = k :=
    substr_of_split json (pre ++ a ++ ['"']) k ('"' :: (m ++ '"' :: (v ++ '"' :: rest))) _ _
      (by rw [hs]; simp)
      (by simp only [hpos, List.length_append, List.length_cons, List.length_nil])
      (by omega)
  have s2 : substr json (pos + a.length + 1 + k.length + 1 + m.length + 1)
      (pos + a.length + 1 + k.length + 1 + m.length + 1 + v.length
        - (pos + a.length + 1 + k.length + 1 + m.length) - 1) = v :=
    substr_of_split json (pre ++ a ++ ['"'] ++ k ++ ['"'] ++ m ++ ['"']) v ('"' :: rest) _ _
      (by rw [hs]; simp)
      (by simp only [hpos, List.length_append, List.length_cons, List.length_nil]) (by omega)
  rw [parseJsonLoop]
  simp only [hlt, if_true, f1, f2, f3, f4, s1, s2]
  have hp : pos + a.length + 1 + k.length + 1 + m.length + 1 + v.length + 1 =
      pos + a.length + k.length + m.length + v.length + 4 := by omega
  rw [hp]

/-- The loop of `parseJson` stops when no double quote is left. -/
theorem parseJsonLoop_stop (json pre a : Str) (pos fuel : Nat) (result : StdMap)
    (hs : json = pre ++ a) (hpos : pos = pre.length) (ha : '"' ∉ a) :
    parseJsonLoop json fuel pos result = result := by
  cases fuel with
  | zero => rfl
  | succ f =>
    rw [parseJsonLoop]
    split
    · simp only [find_none_of_split json pre a '"' pos hs hpos ha]
    · rfl

theorem isalnum_of_isxdigit {ch : Char} (h : isxdigit ch = true) : isalnum ch = true := by
  simp only [isxdigit, isalnum, isdigit, Bool.or_eq_true, Bool.and_eq_true, decide_eq_true_eq] at h ⊢
  omega

theorem quote_not_mem_of_isalnum {s : Str} (h : ∀ ch ∈ s, isalnum ch = true) : '"' ∉ s := by
  intro hq
  have := h _ hq
  revert this; decide

theorem quote_not_mem_of_isxdigit {s : Str} (h : ∀ ch ∈ s, isxdigit ch = true) : '"' ∉ s :=
  quote_not_mem_of_isalnum (fun ch hch => isalnum_of_isxdigit (h ch hch))

theorem quote_not_mem_to_string (x : Int) : '"' ∉ to_string x := by
  intro hq
  unfold to_string at hq
  split at hq
  · simp only [List.mem_cons] at hq
    rcases hq with hq | hq
    · revert hq; decide
    · have := isdigit_of_mem_natToString hq
      revert this; decide
  · have := isdigit_of_mem_natToString hq
    revert this; decide

theorem jsonEntry_length (a k v rest : Str) :
    (jsonEntry a k v rest).length = a.length + k.length + v.length + rest.length + 5 := by
  simp [jsonEntry]; omega

theorem buildJson_four (k₁ v₁ k₂ v₂ k₃ v₃ k₄ v₄ : Str) :
    buildJson [(k₁, v₁), (k₂, v₂), (k₃, v₃), (k₄, v₄)] =
      jsonEntry ['{'] k₁ v₁ (jsonEntry [','] k₂ v₂ (jsonEntry [','] k₃ v₃
        (jsonEntry [','] k₄ v₄ ['}']))) := by
  simp [buildJson, buildJsonLoop, jsonEntry]

/-- One iteration of the loop of `parseJson` across one entry. -/
theorem parseJsonLoop_entry (json pre a k v rest : Str) (pos fuel : Nat)
    (result : StdMap) (hs : json = pre ++ jsonEntry a k v rest) (hpos : pos = pre.length)
    (ha : '"' ∉ a) (hk : '"' ∉ k) (hv : '"' ∉ v) :
    parseJsonLoop json (fuel + 1) pos result =
      parseJsonLoop json fuel (pos + (a.length + k.length + v.length + 5))
        (StdMap.assign result k v) := by
  rw [parseJsonLoop_step json pre a k [':'] v rest pos fuel result hs hpos ha hk (by decide) hv]
  simp only [List.length_cons, List.length_nil]
  have hp : pos + a.length + k.length + (0 + 1) + v.length + 4 =
      pos + (a.length + k.length + v.length + 5) := by omega
  rw [hp]

/-- Reading back the text that `buildJson` writes for four entries whose keys and
values contain no double quote: the loop of `parseJson` performs the four
assignments, in the order of the text. -/
theorem parseJson_buildJson_four (k₁ v₁ k₂ v₂ k₃ v₃ k₄ v₄ : Str)
    (hk₁ : '"' ∉ k₁) (hv₁ : '"' ∉ v₁) (hk₂ : '"' ∉ k₂) (hv₂ : '"' ∉ v₂)
    (hk₃ : '"' ∉ k₃) (hv₃ : '"' ∉ v₃) (hk₄ : '"' ∉ k₄) (hv₄ : '"' ∉ v₄) :
    parseJson (buildJson [(k₁, v₁), (k₂, v₂), (k₃, v₃), (k₄, v₄)]) =
      StdMap.assign (StdMap.assign (StdMap.assign (StdMap.assign [] k₁ v₁) k₂ v₂) k₃ v₃) k₄ v₄ := by
  have hb : '"' ∉ ['{'] := by decide
  have hs : '"' ∉ [','] := by decide
  have he : '"' ∉ ['}'] := by decide
  rw [buildJson_four]
  generalize hj : jsonEntry ['{'] k₁ v₁ (jsonEntry [','] k₂ v₂ (jsonEntry [','] k₃ v₃
        (jsonEntry [','] k₄ v₄ ['}']))) = json
  have hlen : json.length + 1 = (k₁.length + v₁.length + k₂.length + v₂.length + k₃.length
      + v₃.length + k₄.length + v₄.length + 22) + 1 + 1 + 1 + 1 := by
    rw [← hj]; simp only [jsonEntry_length, List.length_cons, List.length_nil]; omega
  unfold parseJson
  rw [hlen]
  generalize k₁.length + v₁.length + k₂.length + v₂.length + k₃.length
      + v₃.length + k₄.length + v₄.length + 22 = fuel
  have e₁ := parseJsonLoop_entry json [] ['{'] k₁ v₁
    (jsonEntry [','] k₂ v₂ (jsonEntry [','] k₃ v₃ (jsonEntry [','] k₄ v₄ ['}'])))
    0 (fuel + 1 + 1 + 1) [] (by rw [← hj]; rfl) rfl hb hk₁ hv₁
  have e₂ := parseJsonLoop_entry json
    (['{'] ++ '"' :: (k₁ ++ '"' :: ([':'] ++ '"' :: (v₁ ++ ['"'])))) [','] k₂ v₂
    (jsonEntry [','] k₃ v₃ (jsonEntry [','] k₄ v₄ ['}']))
    (0 + (['{'].length + k₁.length + v₁.length + 5)) (fuel + 1 + 1) (StdMap.assign [] k₁ v₁)
    (by rw [← hj]; simp [jsonEntry])
    (by simp only [List.length_append, List.length_cons, List.length_nil]; omega) hs hk₂ hv₂
  have e₃ := parseJsonLoop_entry json
    (jsonEntry ['{'] k₁ v₁ ([','] ++ '"' :: (k₂ ++ '"' :: ([':'] ++ '"' :: (v₂ ++ ['"'])))))
    [','] k₃ v₃ (jsonEntry [','] k₄ v₄ ['}'])
    (0 + (['{'].length + k₁.length + v₁.length + 5) + ([','].length + k₂.length + v₂.length + 5))
    (fuel + 1) (StdMap.assign (StdMap.assign [] k₁ v₁) k₂ v₂)
    (by rw [← hj]; simp [jsonEntry])
    (by simp only [jsonEntry_length, List.length_append, List.length_cons, List.length_nil]
        omega) hs hk₃ hv₃
  have e₄ := parseJsonLoop_entry json
    (jsonEntry ['{'] k₁ v₁ (jsonEntry [','] k₂ v₂
      ([','] ++ '"' :: (k₃ ++ '"' :: ([':'] ++ '"' :: (v₃ ++ ['"']))))))
    [','] k₄ v₄ ['}']
    (0 + (['{'].length + k₁.length + v₁.length + 5) + ([','].length + k₂.length + v₂.length + 5)
      + ([','].length + k₃.length + v₃.length + 5))
    fuel (StdMap.assign (StdMap.assign (StdMap.assign [] k₁ v₁) k₂ v₂) k₃ v₃)
    (by rw [← hj]; simp [jsonEntry])
    (by simp only [jsonEntry_length, List.length_append, List.length_cons, List.length_nil]
        omega) hs hk₄ hv₄
  have e₅ := parseJsonLoop_stop json
    (jsonEntry ['{'] k₁ v₁ (jsonEntry [','] k₂ v₂ (jsonEntry [','] k₃ v₃
      ([','] ++ '"' :: (k₄ ++ '"' :: ([':'] ++ '"' :: (v₄ ++ ['"'])))))))
    ['}']
    (0 + (['{'].length + k₁.length + v₁.length + 5) + ([','].length + k₂.length + v₂.length + 5)
      + ([','].length + k₃.length + v₃.length + 5) + ([','].length + k₄.length + v₄.length + 5))
    fuel
    (StdMap.assign (StdMap.assign (StdMap.assign (StdMap.assign [] k₁ v₁) k₂ v₂) k₃ v₃) k₄ v₄)
    (by rw [← hj]; simp [jsonEntry])
    (by simp only [jsonEntry_length, List.length_append, List.length_cons, List.length_nil]
        omega) he
  rw [e₁, e₂, e₃, e₄, e₅]

theorem toMap_eq (p : SecurePacketCpp) :
    p.toMap = [("machine_code".toList, p.machineCode), ("nonce".toList, p.nonce),
      ("signature".toList, p.signature), ("timestamp".toList, to_string p.timestamp)] := rfl

theorem decryptMachineCode_eq (c : Crypto) (S : Str) (now : Int) (enc : Str) (maxAge : Int) :
    decryptMachineCode c S now enc maxAge =
      match SecurePacketCpp.fromJson (base64Decode c enc) with
      | .error _ => []
      | .ok p => if p.verify c S now maxAge = true then p.machineCode else [] := by
  unfold decryptMachineCode decryptMachineCodeBody SecurePacketCpp.fromJson
  dsimp only
  generalize parseJson (base64Decode c enc) = data
  cases hst : stoll (StdMap.at data "timestamp".toList) with
  | error e => rfl
  | ok ts =>
    dsimp only [SecurePacketCpp.verify]
    by_cases hage : sub64 now ts > maxAge
    · simp only [hage, if_true]
      rfl
    · simp only [hage, if_false]
      cases hsig : verifySignature c S
          (combinedData (StdMap.at data "machine_code".toList) ts
            (StdMap.at data "nonce".toList)) ts
          (StdMap.at data "signature".toList) <;> simp

/-! ## Lemmas: license files -/

theorem append_SECRET_KEY_ne (M : Str) : M ++ SECRET_KEY ≠ M := by
  intro h
  have := congrArg List.length h
  simp [SECRET_KEY] at this

theorem VerifyLicense_eq_true_iff (prov : HashProvider) (fs : FileSystem)
    (mgr : LicenseManager) (path : Str) :
    mgr.VerifyLicense prov fs path = true ↔
      ∃ content, fs.content path = some content ∧ content ≠ [] ∧
        content = Sha256 prov mgr.m_machineCode := by
  unfold LicenseManager.VerifyLicense
  cases hc : fs.content path with
  | none => simp
  | some content =>
    cases content with
    | nil => simp
    | cons x xs => simp

theorem GenerateLicenseFile_fst_iff (prov : HashProvider) (fs : FileSystem)
    (machineCode path secretKey : Str) :
    (LicenseManager.GenerateLicenseFile prov fs machineCode path secretKey).1 = true ↔
      machineCode ≠ [] ∧ fs.writable path = true := by
  unfold LicenseManager.GenerateLicenseFile
  cases machineCode with
  | nil => simp
  | cons x xs =>
    cases hw : fs.writable path <;> simp

theorem GenerateLicenseFile_content (prov : HashProvider) (fs : FileSystem)
    (machineCode path secretKey : Str) (hmc : machineCode ≠ [])
    (hw : fs.writable path = true) :
    (LicenseManager.GenerateLicenseFile prov fs machineCode path secretKey).2.content path
      = some (Sha256 prov (machineCode ++ secretKey)) := by
  unfold LicenseManager.GenerateLicenseFile
  cases machineCode with
  | nil => exact absurd rfl hmc
  | cons x xs => simp [hw, FileSystem.write]

/-! ## Claims about the packet codec -/

/-- C1 (evaluation at the failing input): a packet stamped `INT64_MIN` with a
matching signature is accepted at clock reading 1700000000 with
`maxAgeSeconds = 300`, although its exact age `now - timestamp` is far above
300: the 64-bit subtraction wraps to a negative number, so the age test
passes. -/
theorem verify_accepts_wrapped_age (c : Crypto) (S mc nonce : Str) :
    SecurePacketCpp.verify c S 1700000000
        { machineCode := mc, timestamp := -9223372036854775808, nonce := nonce,
          signature := generateSignature c S
            (combinedData mc (-9223372036854775808) nonce) (-9223372036854775808) } 300 = true
      ∧ ¬ ((1700000000 : Int) - (-9223372036854775808) ≤ 300) := by
  refine ⟨?_, by decide⟩
  rw [verify_iff_sub64]
  refine ⟨?_, rfl⟩
  show sub64 1700000000 (-9223372036854775808) ≤ 300
  decide

/-- C2: a packet made by `create` at clock reading `T` under secret `S` verifies
under `S` at clock reading `T'` exactly when `T' - T ≤ maxAge`, and is rejected
when `T' - T > maxAge` (clock readings are seconds since the epoch held in an
`int64_t`). -/
theorem create_verify_iff (c : Crypto) (S mc : Str) (randomBytes : Nat → Byte)
    (T T' maxAge : Int) (hT : 0 ≤ T) (hT64 : T < 2 ^ 63) (hT' : 0 ≤ T') (hT'64 : T' < 2 ^ 63) :
    ((SecurePacketCpp.create c S T randomBytes mc).verify c S T' maxAge = true ↔ T' - T ≤ maxAge)
      ∧ (T' - T > maxAge →
          (SecurePacketCpp.create c S T randomBytes mc).verify c S T' maxAge = false) := by
  have hexact : inInt64 (T' - (SecurePacketCpp.create c S T randomBytes mc).timestamp) := by
    show inInt64 (T' - T)
    unfold inInt64; constructor <;> omega
  have hiff := verify_iff_of_exact c S T' (SecurePacketCpp.create c S T randomBytes mc) maxAge hexact
  have hsig : (SecurePacketCpp.create c S T randomBytes mc).signature =
      generateSignature c S
        (combinedData (SecurePacketCpp.create c S T randomBytes mc).machineCode
          (SecurePacketCpp.create c S T randomBytes mc).timestamp
          (SecurePacketCpp.create c S T randomBytes mc).nonce)
        (SecurePacketCpp.create c S T randomBytes mc).timestamp := rfl
  have hts : (SecurePacketCpp.create c S T randomBytes mc).timestamp = T := rfl
  have key : (SecurePacketCpp.create c S T randomBytes mc).verify c S T' maxAge = true ↔
      T' - T ≤ maxAge := by
    rw [hiff, hts]
    exact ⟨fun h => h.1, fun h => ⟨h, hsig⟩⟩
  refine ⟨key, fun hgt => ?_⟩
  cases hv : (SecurePacketCpp.create c S T randomBytes mc).verify c S T' maxAge with
  | false => rfl
  | true => have := key.1 hv; omega

/-- C2 at the scenario of the specification: created at 1000, `maxAge = 300`:
valid at 1250, invalid at 1301. -/
theorem create_verify_iff_witness :
    (SecurePacketCpp.create sampleCrypto sampleSecret 1000 sampleRandom "ABC123".toList).verify
        sampleCrypto sampleSecret 1250 300 = true
      ∧ (SecurePacketCpp.create sampleCrypto sampleSecret 1000 sampleRandom "ABC123".toList).verify
        sampleCrypto sampleSecret 1301 300 = false :=
  ⟨(create_verify_iff sampleCrypto sampleSecret "ABC123".toList sampleRandom 1000 1250 300
      (by decide) (by norm_num) (by decide) (by norm_num)).1.2 (by decide),
   (create_verify_iff sampleCrypto sampleSecret "ABC123".toList sampleRandom 1000 1301 300
      (by decide) (by norm_num) (by decide) (by norm_num)).2 (by decide)⟩

/-- C3 (as stated, refuted): for the packet made from machine code `ABC123` at
clock reading 1000, the text handed to HMAC is not `machineCode‖timestamp‖nonce`,
and (with the stand-in digest) the stored signature is not the HMAC of that
concatenation. -/
theorem signature_not_plain_concatenation :
    signatureMessage sampleSecret
        (combinedData "ABC123".toList 1000 (generateSalt sampleRandom 16)) 1000
        ≠ "ABC123".toList ++ to_string 1000 ++ generateSalt sampleRandom 16
      ∧ (SecurePacketCpp.create sampleCrypto sampleSecret 1000 sampleRandom "ABC123".toList).signature
        ≠ toHex (sampleCrypto.hmacSha256 sampleSecret
            ("ABC123".toList ++ to_string 1000 ++ generateSalt sampleRandom 16)).bytes := by
  decide

/-- C3 (amended): the signature stored by `create` is the hex form of
HMAC-SHA256, keyed by the AppSecret, of
`machineCode‖"|"‖timestamp‖"|"‖nonce‖timestamp‖AppSecret`, the timestamp in
decimal and the nonce being the 16 characters drawn by `generateSalt`. -/
theorem create_signature_eq (c : Crypto) (S mc : Str) (now : Int) (randomBytes : Nat → Byte) :
    (SecurePacketCpp.create c S now randomBytes mc).signature =
      toHex (c.hmacSha256 S
        (mc ++ ['|'] ++ to_string now ++ ['|'] ++ generateSalt randomBytes 16
          ++ to_string now ++ S)).bytes
      ∧ (SecurePacketCpp.create c S now randomBytes mc).machineCode = mc
      ∧ (SecurePacketCpp.create c S now randomBytes mc).timestamp = now
      ∧ (SecurePacketCpp.create c S now randomBytes mc).nonce = generateSalt randomBytes 16 :=
  ⟨rfl, rfl, rfl, rfl⟩

/-- C4: let `p` carry a signature that is valid under the AppSecret `S`, and let
`q` differ from `p` in exactly one of machineCode, timestamp, nonce while
keeping `p`'s signature. Then the text that is signed for `q` differs from the
text signed for `p`, and, HMAC-SHA256 giving different outputs for these two
different texts, `verify` rejects `q` at every clock reading and for every
`maxAgeSeconds`. -/
theorem tampered_packet_rejected (c : Crypto) (S : Str) (p q : SecurePacketCpp)
    (now maxAge : Int)
    (hvalid : p.signature =
      generateSignature c S (combinedData p.machineCode p.timestamp p.nonce) p.timestamp)
    (hkeep : q.signature = p.signature)
    (htamper :
      (q.machineCode ≠ p.machineCode ∧ q.timestamp = p.timestamp ∧ q.nonce = p.nonce) ∨
      (q.machineCode = p.machineCode ∧ q.timestamp ≠ p.timestamp ∧ q.nonce = p.nonce) ∨
      (q.machineCode = p.machineCode ∧ q.timestamp = p.timestamp ∧ q.nonce ≠ p.nonce))
    (hhmac : signedText S q ≠ signedText S p →
      c.hmacSha256 S (signedText S q) ≠ c.hmacSha256 S (signedText S p)) :
    signedText S q ≠ signedText S p ∧ q.verify c S now maxAge = false := by
  have htext : signedText S q ≠ signedText S p := by
    intro h
    rcases htamper with ⟨h1, h2, h3⟩ | ⟨h1, h2, h3⟩ | ⟨h1, h2, h3⟩
    · exact h1 (signedText_machineCode_injective S h2 h3 h)
    · exact h2 (signedText_timestamp_injective S h1 h3 h)
    · exact h3 (signedText_nonce_injective S h1 h2 h)
  refine ⟨htext, ?_⟩
  cases hv : q.verify c S now maxAge with
  | false => rfl
  | true =>
    exfalso
    have hq := ((verify_iff_sub64 c S now q maxAge).1 hv).2
    rw [hkeep, hvalid] at hq
    exact hhmac htext (Digest.eq_of_bytes (toHex_injective hq)).symm

/-- C4 at a concrete packet: the packet made from `ABC123` at 1000, with its
machine code replaced by `ABC124`, is rejected at 1250 with `maxAge = 300`. -/
theorem tampered_packet_rejected_witness :
    ({ SecurePacketCpp.create sampleCrypto sampleSecret 1000 sampleRandom "ABC123".toList with
        machineCode := "ABC124".toList } : SecurePacketCpp).verify
      sampleCrypto sampleSecret 1250 300 = false :=
  (tampered_packet_rejected sampleCrypto sampleSecret
    (SecurePacketCpp.create sampleCrypto sampleSecret 1000 sampleRandom "ABC123".toList)
    { SecurePacketCpp.create sampleCrypto sampleSecret 1000 sampleRandom "ABC123".toList with
        machineCode := "ABC124".toList } 1250 300 rfl rfl (Or.inl ⟨by decide, rfl, rfl⟩)
    (fun _ => by decide)).2


/-- C5: for a packet whose machine code and signature are hexadecimal, whose nonce
is alphanumeric and whose timestamp is a 64-bit integer, `fromJson` applied to
the output of `toJson` returns the packet itself: all four fields are
recovered unchanged. -/
theorem fromJson_toJson (p : SecurePacketCpp)
    (hmc : ∀ ch ∈ p.machineCode, isxdigit ch = true)
    (hnonce : ∀ ch ∈ p.nonce, isalnum ch = true)
    (hsig : ∀ ch ∈ p.signature, isxdigit ch = true)
    (hts : inInt64 p.timestamp) :
    SecurePacketCpp.fromJson p.toJson = .ok p := by
  have hparse := parseJson_buildJson_four
    "machine_code".toList p.machineCode "nonce".toList p.nonce
    "signature".toList p.signature "timestamp".toList (to_string p.timestamp)
    (by decide) (quote_not_mem_of_isxdigit hmc) (by decide) (quote_not_mem_of_isalnum hnonce)
    (by decide) (quote_not_mem_of_isxdigit hsig) (by decide) (quote_not_mem_to_string _)
  have hmap : StdMap.assign (StdMap.assign (StdMap.assign (StdMap.assign []
      "machine_code".toList p.machineCode) "nonce".toList p.nonce)
      "signature".toList p.signature) "timestamp".toList (to_string p.timestamp) =
      [("machine_code".toList, p.machineCode), ("nonce".toList, p.nonce),
        ("signature".toList, p.signature), ("timestamp".toList, to_string p.timestamp)] := rfl
  unfold SecurePacketCpp.fromJson SecurePacketCpp.toJson
  rw [toMap_eq, hparse, hmap]
  have h1 : StdMap.at [("machine_code".toList, p.machineCode), ("nonce".toList, p.nonce),
        ("signature".toList, p.signature), ("timestamp".toList, to_string p.timestamp)]
        "timestamp".toList = to_string p.timestamp := rfl
  have h2 : StdMap.at [("machine_code".toList, p.machineCode), ("nonce".toList, p.nonce),
        ("signature".toList, p.signature), ("timestamp".toList, to_string p.timestamp)]
        "machine_code".toList = p.machineCode := rfl
  have h3 : StdMap.at [("machine_code".toList, p.machineCode), ("nonce".toList, p.nonce),
        ("signature".toList, p.signature), ("timestamp".toList, to_string p.timestamp)]
        "nonce".toList = p.nonce := rfl
  have h4 : StdMap.at [("machine_code".toList, p.machineCode), ("nonce".toList, p.nonce),
        ("signature".toList, p.signature), ("timestamp".toList, to_string p.timestamp)]
        "signature".toList = p.signature := rfl
  simp only [h1, h2, h3, h4, stoll_to_string hts]

/-- C5 at a concrete packet: the packet made from a hexadecimal machine code at
clock reading 1000 is read back unchanged. -/
theorem fromJson_toJson_witness :
    SecurePacketCpp.fromJson
      (SecurePacketCpp.create sampleCrypto sampleSecret 1000 sampleRandom
        "0f3a9c".toList).toJson =
      .ok (SecurePacketCpp.create sampleCrypto sampleSecret 1000 sampleRandom "0f3a9c".toList) :=
  fromJson_toJson _ (by decide) (by decide) (by decide) (by decide)

/-- C6 (evaluation at failing inputs): on the text `{}`, which has no timestamp
key, and on a text whose timestamp is not a number, the `std::invalid_argument`
raised by `std::stoll` leaves `fromJson`; on a timestamp beyond 64 bits it is
`std::out_of_range` that leaves it. -/
theorem fromJson_exception_escapes :
    SecurePacketCpp.fromJson "\x7b\x7d".toList = .error .invalid_argument
      ∧ SecurePacketCpp.fromJson
          "\x7b\"machine_code\":\"ab\",\"nonce\":\"n\",\"signature\":\"cd\",\"timestamp\":\"soon\"\x7d".toList
          = .error .invalid_argument
      ∧ SecurePacketCpp.fromJson
          "\x7b\"machine_code\":\"ab\",\"nonce\":\"n\",\"signature\":\"cd\",\"timestamp\":\"9223372036854775808\"\x7d".toList
          = .error .out_of_range := by
  decide

/-! ## Claims about the offline license check -/

/-- C8: for a non-empty machine code, `GenerateLicenseFile` succeeds exactly when
the license file can be opened for writing, and then the file holds exactly
`Sha256(machineCode ‖ secretKey)` (the digest in hex) and no other file is
touched; the blob depends on nothing but the two inputs, so two invocations
with identical inputs, from whatever prior file-system states, write identical
blobs. -/
theorem GenerateLicenseFile_blob (prov : HashProvider) (fs : FileSystem)
    (machineCode path secretKey : Str) (hmc : machineCode ≠ [])
    (hw : fs.writable path = true) :
    (LicenseManager.GenerateLicenseFile prov fs machineCode path secretKey).1 = true
      ∧ (LicenseManager.GenerateLicenseFile prov fs machineCode path secretKey).2.content path
          = some (Sha256 prov (machineCode ++ secretKey))
      ∧ (∀ other, other ≠ path →
          (LicenseManager.GenerateLicenseFile prov fs machineCode path secretKey).2.content other
            = fs.content other)
      ∧ (∀ fs₂ : FileSystem, fs₂.writable path = true →
          (LicenseManager.GenerateLicenseFile prov fs₂ machineCode path secretKey).2.content path
            = (LicenseManager.GenerateLicenseFile prov fs machineCode path secretKey).2.content
                path) := by
  have hne : machineCode.isEmpty = false := by
    cases machineCode with
    | nil => exact absurd rfl hmc
    | cons x xs => rfl
  refine ⟨?_, ?_, ?_, ?_⟩
  · simp [LicenseManager.GenerateLicenseFile, hne, hw]
  · simp [LicenseManager.GenerateLicenseFile, hne, hw, FileSystem.write]
  · intro other ho
    simp [LicenseManager.GenerateLicenseFile, hne, hw, FileSystem.write, ho]
  · intro fs₂ hw₂
    simp [LicenseManager.GenerateLicenseFile, hne, hw, hw₂, FileSystem.write]

/-- C8 at the scenario of the specification: machine code `ABC123` and secret key
`K1` write the blob `Sha256("ABC123K1")`. -/
theorem GenerateLicenseFile_blob_witness :
    (LicenseManager.GenerateLicenseFile sampleProvider sampleFs "ABC123".toList
        "license.dat".toList "K1".toList).2.content "license.dat".toList
      = some (Sha256 sampleProvider "ABC123K1".toList) :=
  (GenerateLicenseFile_blob sampleProvider sampleFs "ABC123".toList "license.dat".toList
    "K1".toList (by decide) rfl).2.1

/-- C9 (as stated, refuted): when the hash provider fails, `Sha256(machineCode)` is
the empty string; an empty license file is then byte-for-byte equal to it, and
`VerifyLicense` still returns false. -/
theorem VerifyLicense_rejects_equal_empty_file :
    emptyLicenseFs.content "license.dat".toList
        = some (Sha256 failingProvider (LicenseManager.mk []).m_machineCode)
      ∧ (LicenseManager.mk []).VerifyLicense failingProvider emptyLicenseFs
          "license.dat".toList = false := by
  decide

/-- C9 (amended): `VerifyLicense` returns true if and only if a file exists at the
path, its content is not empty, and the content is byte-for-byte equal to
`Sha256(machineCode)` of the manager; it returns false when the file is
missing, when it is empty, and when the content differs from
`Sha256(machineCode)`. -/
theorem VerifyLicense_iff (prov : HashProvider) (fs : FileSystem) (mgr : LicenseManager)
    (path : Str) :
    (mgr.VerifyLicense prov fs path = true ↔
        ∃ content, fs.content path = some content ∧ content ≠ [] ∧
          content = Sha256 prov mgr.m_machineCode)
      ∧ (fs.content path = none → mgr.VerifyLicense prov fs path = false)
      ∧ (fs.content path = some [] → mgr.VerifyLicense prov fs path = false)
      ∧ (∀ content, fs.content path = some content →
          content ≠ Sha256 prov mgr.m_machineCode → mgr.VerifyLicense prov fs path = false) := by
  refine ⟨VerifyLicense_eq_true_iff prov fs mgr path, ?_, ?_, ?_⟩
  · intro h; simp [LicenseManager.VerifyLicense, h]
  · intro h; simp [LicenseManager.VerifyLicense, h]
  · intro content h hne
    simp [LicenseManager.VerifyLicense, h, hne]

/-- C10 (evaluation of the code): the license that `GenerateLicenseForClient`
issues for `M` holds `Sha256(M ‖ "DEFAULT_SECRET_KEY_2026")`, while
`VerifyLicense` expects `Sha256(M)`. Generation succeeds and the client
accepts the file only if the hash provider gives the two different texts
`M ‖ "DEFAULT_SECRET_KEY_2026"` and `M` the same non-empty digest; with the
stand-in provider the license issued for `ABC123` is rejected. -/
theorem issued_license_accepted_iff_collision (prov : HashProvider) (fs : FileSystem)
    (M path : Str) :
    (((LicenseManager.GenerateLicenseFile prov fs M path SECRET_KEY).1 = true ∧
        (LicenseManager.mk M).VerifyLicense prov (GenerateLicenseForClient prov fs M path) path
          = true)
        ↔ (M ≠ [] ∧ fs.writable path = true ∧ Sha256 prov (M ++ SECRET_KEY) ≠ [] ∧
            Sha256 prov (M ++ SECRET_KEY) = Sha256 prov M))
      ∧ M ++ SECRET_KEY ≠ M
      ∧ (LicenseManager.mk "ABC123".toList).VerifyLicense sampleProvider
          (GenerateLicenseForClient sampleProvider sampleFs "ABC123".toList "license.dat".toList)
          "license.dat".toList = false := by
  refine ⟨?_, append_SECRET_KEY_ne M, by decide⟩
  rw [VerifyLicense_eq_true_iff, GenerateLicenseFile_fst_iff]
  constructor
  · rintro ⟨⟨hM, hw⟩, content, hc, hne, heq⟩
    rw [GenerateLicenseForClient, GenerateLicenseFile_content prov fs M path SECRET_KEY hM hw] at hc
    injection hc with hc
    subst hc
    exact ⟨hM, hw, hne, heq⟩
  · rintro ⟨hM, hw, hne, heq⟩
    refine ⟨⟨hM, hw⟩, _, ?_, hne, heq⟩
    rw [GenerateLicenseForClient]
    exact GenerateLicenseFile_content prov fs M path SECRET_KEY hM hw

/-! ## Lemmas: machine code, hex digests, salts -/

theorem combinedInfo_eq_bars_iff (cpu board disk : Str) :
    cpu ++ ['|'] ++ board ++ ['|'] ++ disk = ['|', '|'] ↔ cpu = [] ∧ board = [] ∧ disk = [] := by
  constructor
  · intro h
    have hlen := congrArg List.length h
    simp only [List.length_append, List.length_cons, List.length_nil] at hlen
    refine ⟨List.length_eq_zero.1 (by omega), List.length_eq_zero.1 (by omega),
      List.length_eq_zero.1 (by omega)⟩
  · rintro ⟨rfl, rfl, rfl⟩; rfl

theorem hexDigit_mem_lowerHexDigits : ∀ n : Fin 16, hexDigit n.val ∈ lowerHexDigits := by
  decide

theorem mem_toHex {ch : Char} : ∀ {l : List Byte}, ch ∈ toHex l → ch ∈ lowerHexDigits := by
  intro l
  induction l with
  | nil => intro h; simp [toHex] at h
  | cons b bs ih =>
    intro h
    simp only [toHex, hexByte, List.cons_append, List.nil_append, List.mem_cons] at h
    rcases h with h | h | h
    · rw [h]; exact hexDigit_mem_lowerHexDigits ⟨b.val / 16, by omega⟩
    · rw [h]; exact hexDigit_mem_lowerHexDigits ⟨b.val % 16, by omega⟩
    · exact ih h

/-- The two characters that `toHex` writes for the byte at index `i`. -/
theorem toHex_get? : ∀ (l : List Byte) (i : Nat) (b : Byte), l.get? i = some b →
    (toHex l).get? (2 * i) = some (hexDigit (b.val / 16)) ∧
      (toHex l).get? (2 * i + 1) = some (hexDigit (b.val % 16)) := by
  intro l
  induction l with
  | nil => intro i b h; simp at h
  | cons x xs ih =>
    intro i b h
    cases i with
    | zero =>
      simp only [List.get?_cons_zero, Option.some.injEq] at h
      subst h
      simp [toHex, hexByte]
    | succ j =>
      simp only [List.get?_cons_succ] at h
      have := ih j b h
      have e1 : 2 * (j + 1) = (2 * j) + 1 + 1 := by omega
      rw [e1]
      simpa [toHex, hexByte] using this

theorem charset_getD_mem : ∀ i : Fin 62, charset.getD i.val 'A' ∈ charset := by
  decide

theorem isalnum_of_mem_charset : ∀ ch ∈ charset, isalnum ch = true := by
  decide

theorem generateSalt_length (randomBytes : Nat → Byte) (n : Nat) :
    (generateSalt randomBytes n).length = n := by
  simp [generateSalt]

theorem mem_generateSalt {randomBytes : Nat → Byte} {n : Nat} {ch : Char}
    (h : ch ∈ generateSalt randomBytes n) : ch ∈ charset := by
  simp only [generateSalt, List.mem_map] at h
  obtain ⟨i, _, rfl⟩ := h
  exact charset_getD_mem ⟨(randomBytes i).val % max_index, Nat.mod_lt _ (by decide)⟩

/-! ## Claims about the fingerprint and the nonce -/

/-- C11: when at least one of the three hardware identifiers is non-empty,
`GenerateMachineCode` returns `Sha256(cpu + "|" + board + "|" + disk)`; when all
three are empty and a device name is available, it returns
`Sha256(deviceName)`. The result is a function of these inputs (and of the
hash provider) alone. -/
theorem GenerateMachineCode_eq (prov : HashProvider) (cpu board disk : Str)
    (computerName : Option Str) (h : cpu ≠ [] ∨ board ≠ [] ∨ disk ≠ []) :
    GenerateMachineCode prov cpu board disk computerName =
        Sha256 prov (cpu ++ ['|'] ++ board ++ ['|'] ++ disk)
      ∧ ∀ deviceName : Str,
          GenerateMachineCode prov [] [] [] (some deviceName) = Sha256 prov deviceName := by
  constructor
  · have hne : ¬ (cpu ++ ['|'] ++ board ++ ['|'] ++ disk = ['|', '|']) := by
      rw [combinedInfo_eq_bars_iff]
      rintro ⟨h1, h2, h3⟩
      rcases h with h | h | h
      · exact h h1
      · exact h h2
      · exact h h3
    simp only [GenerateMachineCode, hne, if_false]
  · intro deviceName
    rfl

/-- C11 at concrete identifiers: only the disk serial is known. -/
theorem GenerateMachineCode_eq_witness :
    GenerateMachineCode sampleProvider [] [] "WD-1234".toList none =
        Sha256 sampleProvider "||WD-1234".toList
      ∧ ∀ deviceName : Str,
          GenerateMachineCode sampleProvider [] [] [] (some deviceName) =
            Sha256 sampleProvider deviceName :=
  GenerateMachineCode_eq sampleProvider [] [] "WD-1234".toList none
    (Or.inr (Or.inr (by decide)))

/-- C12 (evaluation of the code): with all three identifiers empty and no device
name, `GenerateMachineCode` returns `Sha256("||")`, whatever the hash provider;
with a provider that succeeds (32 digest bytes) this is a 64-character digest,
not the empty string. -/
theorem GenerateMachineCode_without_identifiers (prov : HashProvider) :
    GenerateMachineCode prov [] [] [] none = Sha256 prov "||".toList
      ∧ (∀ hashData, prov "||".toList = some hashData → hashData.length = 32 →
          (GenerateMachineCode prov [] [] [] none).length = 64)
      ∧ (GenerateMachineCode sampleProvider [] [] [] none).length = 64
      ∧ GenerateMachineCode sampleProvider [] [] [] none ≠ [] := by
  refine ⟨rfl, ?_, by decide, by decide⟩
  intro hashData hd hlen
  have h : GenerateMachineCode prov [] [] [] none = Sha256 prov "||".toList := rfl
  rw [h]
  simp only [Sha256, hd, toHex_length, hlen]

/-- C13: when the hash provider succeeds with a 32-byte digest on every input,
`Sha256` returns, for every input, exactly 64 characters, each one of
`0123456789abcdef`: byte `i` of the digest gives characters `2i` and `2i+1`,
its high and low hexadecimal digit, in lower case and zero-padded. The same
holds for `GenerateMachineCode`, and for `SecureTransportCpp::sha256`. -/
theorem Sha256_is_64_hex (prov : HashProvider)
    (hprov : ∀ s, ∃ hashData, prov s = some hashData ∧ hashData.length = 32)
    (input : Str) :
    (Sha256 prov input).length = 64
      ∧ (∀ ch ∈ Sha256 prov input, ch ∈ lowerHexDigits)
      ∧ (∀ hashData, prov input = some hashData → ∀ i b, hashData.get? i = some b →
          (Sha256 prov input).get? (2 * i) = some (hexDigit (b.val / 16)) ∧
          (Sha256 prov input).get? (2 * i + 1) = some (hexDigit (b.val % 16)))
      ∧ (∀ cpu board disk computerName,
          (GenerateMachineCode prov cpu board disk computerName).length = 64 ∧
          ∀ ch ∈ GenerateMachineCode prov cpu board disk computerName, ch ∈ lowerHexDigits)
      ∧ (∀ (c : Crypto) (text : Str),
          (sha256 c text).length = 64 ∧ ∀ ch ∈ sha256 c text, ch ∈ lowerHexDigits) := by
  have hall : ∀ s, (Sha256 prov s).length = 64 ∧ ∀ ch ∈ Sha256 prov s, ch ∈ lowerHexDigits := by
    intro s
    obtain ⟨d, hd, hlen⟩ := hprov s
    simp only [Sha256, hd]
    exact ⟨by rw [toHex_length, hlen], fun ch hch => mem_toHex hch⟩
  refine ⟨(hall input).1, (hall input).2, ?_, ?_, ?_⟩
  · intro hashData hd i b hb
    simp only [Sha256, hd]
    exact toHex_get? hashData i b hb
  · intro cpu board disk computerName
    exact hall _
  · intro c text
    exact ⟨by rw [sha256, toHex_length, (c.sha256 text).size_eq], fun ch hch => mem_toHex hch⟩

/-- C13 at a concrete input: the digest text of `ABC123` has 64 characters. -/
theorem Sha256_is_64_hex_witness : (Sha256 sampleProvider "ABC123".toList).length = 64 :=
  (Sha256_is_64_hex sampleProvider (fun s => ⟨_, rfl, (sampleDigest s).size_eq⟩)
    "ABC123".toList).1

/-- C14: for every length `n` from 0 to 256 and every sequence of random bytes,
`generateSalt(n)` returns exactly `n` characters, each from the 62-character
alphabet `A`-`Z`, `a`-`z`, `0`-`9`; so the nonce of every packet made by
`create` has exactly 16 characters, all alphanumeric. -/
theorem generateSalt_alphabet (randomBytes : Nat → Byte) (n : Nat) (_hn : n ≤ 256) :
    (generateSalt randomBytes n).length = n
      ∧ (∀ ch ∈ generateSalt randomBytes n, ch ∈ charset ∧ isalnum ch = true)
      ∧ charset.length = 62
      ∧ ∀ (c : Crypto) (S : Str) (now : Int) (machineCode : Str),
          (SecurePacketCpp.create c S now randomBytes machineCode).nonce.length = 16 ∧
          ∀ ch ∈ (SecurePacketCpp.create c S now randomBytes machineCode).nonce,
            isalnum ch = true := by
  refine ⟨generateSalt_length _ _, ?_, by decide, ?_⟩
  · intro ch hch
    exact ⟨mem_generateSalt hch, isalnum_of_mem_charset _ (mem_generateSalt hch)⟩
  · intro c S now machineCode
    refine ⟨generateSalt_length _ 16, ?_⟩
    intro ch hch
    exact isalnum_of_mem_charset _ (mem_generateSalt hch)

/-- C14 at a concrete length: a salt of 16 characters. -/
theorem generateSalt_alphabet_witness : (generateSalt sampleRandom 16).length = 16 :=
  (generateSalt_alphabet sampleRandom 16 (by decide)).1

/-! ## Lemmas: text search and response parsing -/

theorem startsWith_split : ∀ (needle s : Str), startsWith needle s = true →
    ∃ b, s = needle ++ b := by
  intro needle
  induction needle with
  | nil => intro s _; exact ⟨s, rfl⟩
  | cons a as ih =>
    intro s h
    cases s with
    | nil => simp [startsWith] at h
    | cons x xs =>
      simp only [startsWith, Bool.and_eq_true, decide_eq_true_eq] at h
      obtain ⟨b, hb⟩ := ih xs h.2
      exact ⟨b, by rw [h.1, hb]; rfl⟩

theorem findStrAux_contains (needle : Str) : ∀ (s : Str) (i j : Nat),
    findStrAux needle s i = some j → containsText s needle := by
  intro s
  induction s with
  | nil =>
    intro i j h
    cases needle with
    | nil => exact ⟨[], [], rfl⟩
    | cons a as => simp [findStrAux] at h
  | cons x xs ih =>
    intro i j h
    rw [findStrAux] at h
    split at h
    · rename_i hs
      obtain ⟨b, hb⟩ := startsWith_split needle (x :: xs) hs
      exact ⟨[], b, by simpa using hb⟩
    · obtain ⟨a, b, hab⟩ := ih _ _ h
      exact ⟨x :: a, b, by rw [hab]; simp⟩

theorem findStr_zero_none {json needle : Str} (h : ¬ containsText json needle) :
    findStr json needle 0 = none := by
  cases hf : findStr json needle 0 with
  | none => rfl
  | some j =>
    exfalso
    simp only [findStr, Nat.zero_le, if_true, List.drop_zero] at hf
    exact h (findStrAux_contains needle json 0 j hf)

theorem extractJsonValue_of_missing {json key : Str}
    (h : ¬ containsText json (searchKey key)) : extractJsonValue json key = [] := by
  simp only [extractJsonValue, findStr_zero_none h]

theorem extractJsonBool_of_missing {json key : Str}
    (h : ¬ containsText json (searchKey key)) : extractJsonBool json key = false := by
  simp only [extractJsonBool, findStr_zero_none h]

theorem not_containsText_of_length_lt {json text : Str} (h : json.length < text.length) :
    ¬ containsText json text := by
  rintro ⟨a, b, hab⟩
  have := congrArg List.length hab
  simp only [List.length_append] at this
  omega

/-! ## Claims about the license protocol client -/

/-- C18: when the response body does not contain the text `"<key>":`,
`extractJsonValue` returns the empty string and `extractJsonBool` returns
false; so when the transport answers with an HTTP-successful response whose
body lacks all the expected keys, `requestLicense` returns `success = false`
with empty `licenseKey`, `message` and `expiresAt`, and `verifyLicense` returns
`valid = false` (with empty `message` and `expiresAt`): a result is returned,
nothing fails. -/
theorem missing_keys_read_as_empty (json key : Str)
    (hmissing : ¬ containsText json (searchKey key)) :
    extractJsonValue json key = []
      ∧ extractJsonBool json key = false
      ∧ (∀ (c : Crypto) (S : Str) (now : Int) (randomBytes : Nat → Byte)
          (client : LicenseClientCpp) (machineCode userInfo : Str) (r : Response),
          r.success = true → r.body = json →
          (∀ k ∈ ["success".toList, "license_key".toList, "message".toList,
              "expires_at".toList], ¬ containsText json (searchKey k)) →
          (client.requestLicense c S now randomBytes (constantTransport r) machineCode
              userInfo).1
            = { success := false, licenseKey := [], message := [], expiresAt := [],
                error := [] })
      ∧ (∀ (c : Crypto) (S : Str) (now : Int) (randomBytes : Nat → Byte)
          (client : LicenseClientCpp) (machineCode licenseKey : Str) (r : Response),
          r.success = true → r.body = json →
          (∀ k ∈ ["valid".toList, "message".toList, "expires_at".toList],
              ¬ containsText json (searchKey k)) →
          (client.verifyLicense c S now randomBytes (constantTransport r) machineCode
              licenseKey).1
            = { valid := false, message := [], expiresAt := [], error := [] }) := by
  refine ⟨extractJsonValue_of_missing hmissing, extractJsonBool_of_missing hmissing, ?_, ?_⟩
  · intro c S now randomBytes client machineCode userInfo r hs hb hk
    subst hb
    simp only [LicenseClientCpp.requestLicense, constantTransport, hs, if_true,
      extractJsonBool_of_missing (hk "success".toList (by simp)),
      extractJsonValue_of_missing (hk "license_key".toList (by simp)),
      extractJsonValue_of_missing (hk "message".toList (by simp)),
      extractJsonValue_of_missing (hk "expires_at".toList (by simp))]
  · intro c S now randomBytes client machineCode licenseKey r hs hb hk
    subst hb
    simp only [LicenseClientCpp.verifyLicense, constantTransport, hs, if_true,
      extractJsonBool_of_missing (hk "valid".toList (by simp)),
      extractJsonValue_of_missing (hk "message".toList (by simp)),
      extractJsonValue_of_missing (hk "expires_at".toList (by simp))]

/-- C18 at the body `{}`: `requestLicense` returns `success = false` and empty
texts. -/
theorem missing_keys_read_as_empty_witness :
    (sampleClient.requestLicense sampleCrypto sampleSecret 1000 sampleRandom
        (constantTransport (okResponse "\x7b\x7d".toList)) "ABC123".toList "me".toList).1
      = { success := false, licenseKey := [], message := [], expiresAt := [], error := [] } :=
  (missing_keys_read_as_empty "\x7b\x7d".toList "success".toList
      (not_containsText_of_length_lt (by decide))).2.2.1
    sampleCrypto sampleSecret 1000 sampleRandom sampleClient "ABC123".toList "me".toList
    (okResponse "\x7b\x7d".toList) rfl rfl
    (fun k _ => not_containsText_of_length_lt (by
      simp only [searchKey, List.length_append, List.length_cons, List.length_nil]
      show 2 < _
      omega))

/-- C19 (evaluation at the failing input): for the HTTP-successful body
`{"valid":false,"ok":true}`, `extractJsonBool` reads `valid` as true, because
the text `true` begins less than 20 characters after the key, and
`verifyLicense` returns `valid = true`. -/
theorem false_flag_read_as_true :
    extractJsonBool "\x7b\"valid\":false,\"ok\":true\x7d".toList "valid".toList = true
      ∧ (sampleClient.verifyLicense sampleCrypto sampleSecret 1000 sampleRandom
          (constantTransport (okResponse "\x7b\"valid\":false,\"ok\":true\x7d".toList))
          "ABC123".toList "KEY-1".toList).1.valid = true := by
  decide

/-- C20 (as stated, refuted): when the transport fails with the error text
`Timeout was reached`, the `error` field of the result of `requestLicense` is
empty (and so is that of `verifyLicense`); the text is in `message`. -/
theorem transport_error_not_in_error_field :
    (sampleClient.requestLicense sampleCrypto sampleSecret 1000 sampleRandom
        (constantTransport (failedResponse "Timeout was reached".toList))
        "ABC123".toList "me".toList).1
      = { success := false, licenseKey := [], message := "Timeout was reached".toList,
          expiresAt := [], error := [] }
      ∧ (sampleClient.verifyLicense sampleCrypto sampleSecret 1000 sampleRandom
        (constantTransport (failedResponse "Timeout was reached".toList))
        "ABC123".toList "KEY-1".toList).1
      = { valid := false, message := "Timeout was reached".toList, expiresAt := [],
          error := [] } := by
  decide

/-- C20 (amended): when the transport fails (it returns `success = false` with a
non-empty error text), `requestLicense` returns a result with `success = false`
whose `message` field is that non-empty error text, the `error` field and the
other texts being empty; `verifyLicense` likewise returns `valid = false` with
the error text in `message`. A result is returned in every case. -/
theorem transport_failure_in_message (c : Crypto) (S : Str) (now : Int)
    (randomBytes : Nat → Byte) (transport : HttpTransport) (client : LicenseClientCpp)
    (machineCode userInfo licenseKey : Str)
    (hfail : ∀ url data, (transport url data).success = false)
    (herror : ∀ url data, (transport url data).error ≠ []) :
    (client.requestLicense c S now randomBytes transport machineCode userInfo).1
        = { success := false, licenseKey := []
            message := (transport (client.m_serverUrl ++ "/license/request".toList)
              (requestLicenseBody (securePacketBase64 c S now randomBytes machineCode)
                userInfo)).error
            expiresAt := [], error := [] }
      ∧ (client.requestLicense c S now randomBytes transport machineCode userInfo).1.message
          ≠ []
      ∧ (client.verifyLicense c S now randomBytes transport machineCode licenseKey).1
        = { valid := false
            message := (transport (client.m_serverUrl ++ "/license/verify".toList)
              (verifyLicenseBody (securePacketBase64 c S now randomBytes machineCode)
                licenseKey)).error
            expiresAt := [], error := [] }
      ∧ (client.verifyLicense c S now randomBytes transport machineCode licenseKey).1.message
          ≠ [] := by
  have h1 : (client.requestLicense c S now randomBytes transport machineCode userInfo).1
        = { success := false, licenseKey := []
            message := (transport (client.m_serverUrl ++ "/license/request".toList)
              (requestLicenseBody (securePacketBase64 c S now randomBytes machineCode)
                userInfo)).error
            expiresAt := [], error := [] } := by
    simp only [LicenseClientCpp.requestLicense, hfail, Bool.false_eq_true, if_false]
  have h2 : (client.verifyLicense c S now randomBytes transport machineCode licenseKey).1
        = { valid := false
            message := (transport (client.m_serverUrl ++ "/license/verify".toList)
              (verifyLicenseBody (securePacketBase64 c S now randomBytes machineCode)
                licenseKey)).error
            expiresAt := [], error := [] } := by
    simp only [LicenseClientCpp.verifyLicense, hfail, Bool.false_eq_true, if_false]
  refine ⟨h1, ?_, h2, ?_⟩
  · rw [h1]; exact herror _ _
  · rw [h2]; exact herror _ _

/-- C20 (amended) at the scenario of the specification: a transport that times
out gives `success = false` and a non-empty `message`. -/
theorem transport_failure_in_message_witness :
    (sampleClient.requestLicense sampleCrypto sampleSecret 1000 sampleRandom
        (constantTransport (failedResponse "Timeout was reached".toList))
        "ABC123".toList "me".toList).1.message ≠ [] :=
  (transport_failure_in_message sampleCrypto sampleSecret 1000 sampleRandom
    (constantTransport (failedResponse "Timeout was reached".toList)) sampleClient
    "ABC123".toList "me".toList "KEY-1".toList (fun _ _ => rfl)
    (fun _ _ => List.cons_ne_nil _ _)).2.1

/-! ## Lemmas: reading back quoted entries -/

theorem jsonEntries_length_ge : ∀ (es : List (Str × Str)) (a rest : Str),
    es.length ≤ (jsonEntries a es rest).length := by
  intro es
  induction es with
  | nil => intro a rest; simp
  | cons e es ih =>
    intro a rest
    obtain ⟨k, v⟩ := e
    have := ih [','] rest
    simp only [jsonEntries, jsonEntry_length, List.length_cons]
    omega

/-- The loop of `parseJson` over a run of entries whose keys and values contain
no double quote performs the assignments of these entries, in order. -/
theorem parseJsonLoop_entries (json : Str) : ∀ (es : List (Str × Str)) (pre a rest : Str)
    (pos fuel : Nat) (result : StdMap),
    json = pre ++ jsonEntries a es rest → pos = pre.length →
    '"' ∉ a → '"' ∉ rest → (∀ e ∈ es, '"' ∉ e.1 ∧ '"' ∉ e.2) → es.length ≤ fuel →
    parseJsonLoop json fuel pos result = assignAll result es := by
  intro es
  induction es with
  | nil =>
    intro pre a rest pos fuel result hs hpos _ hrest _ _
    exact parseJsonLoop_stop json pre rest pos fuel result hs hpos hrest
  | cons e es ih =>
    intro pre a rest pos fuel result hs hpos ha hrest hes hfuel
    obtain ⟨k, v⟩ := e
    have hkv := hes (k, v) (by simp)
    cases fuel with
    | zero => simp at hfuel
    | succ f =>
      rw [parseJsonLoop_entry json pre a k v (jsonEntries [','] es rest) pos f result hs hpos ha
        hkv.1 hkv.2]
      rw [ih (pre ++ (a ++ '"' :: (k ++ '"' :: ([':'] ++ '"' :: (v ++ ['"']))))) [','] rest
        (pos + (a.length + k.length + v.length + 5)) f (StdMap.assign result k v)
        (by rw [hs]; simp [jsonEntries, jsonEntry])
        (by simp only [hpos, List.length_append, List.length_cons, List.length_nil]; omega)
        (by decide) hrest (fun e he => hes e (by simp [he]))
        (by simpa using hfuel)]
      rfl

/-- Reading back, with `parseJson`, a brace-enclosed run of entries whose keys and
values contain no double quote. -/
theorem parseJson_jsonEntries (es : List (Str × Str))
    (hes : ∀ e ∈ es, '"' ∉ e.1 ∧ '"' ∉ e.2) :
    parseJson (jsonEntries ['{'] es ['}']) = assignAll [] es := by
  unfold parseJson
  exact parseJsonLoop_entries _ es [] ['{'] ['}'] 0 _ [] rfl rfl (by decide) (by decide) hes
    (Nat.le_succ_of_le (jsonEntries_length_ge es _ _))

theorem requestLicenseBody_eq (b u : Str) :
    requestLicenseBody b u =
      jsonEntries ['{'] [("secure_packet".toList, b), ("user_info".toList, u),
        ("action".toList, "request".toList)] ['}'] := by
  simp [requestLicenseBody, jsonEntries, jsonEntry]

theorem verifyLicenseBody_eq (b k : Str) :
    verifyLicenseBody b k =
      jsonEntries ['{'] [("secure_packet".toList, b), ("license_key".toList, k),
        ("action".toList, "verify".toList)] ['}'] := by
  simp [verifyLicenseBody, jsonEntries, jsonEntry]

theorem getLicenseInfoBody_eq (b : Str) :
    getLicenseInfoBody b =
      jsonEntries ['{'] [("secure_packet".toList, b), ("action".toList, "info".toList)] ['}'] := by
  simp [getLicenseInfoBody, jsonEntries, jsonEntry]

/-! ## Lemmas: the text of `toJson` -/

theorem toJson_text (p : SecurePacketCpp) :
    p.toJson = "\x7b\"machine_code\":\"".toList ++ p.machineCode
      ++ "\",\"nonce\":\"".toList ++ p.nonce
      ++ "\",\"signature\":\"".toList ++ p.signature
      ++ "\",\"timestamp\":\"".toList ++ to_string p.timestamp ++ "\"\x7d".toList := by
  rw [SecurePacketCpp.toJson, toMap_eq]
  simp [buildJson, buildJsonLoop]

theorem isspace_false_of_mem_to_string {x : Int} {ch : Char} (h : ch ∈ to_string x) :
    isspace ch = false := by
  unfold to_string at h
  split at h
  · simp only [List.mem_cons] at h
    rcases h with h | h
    · rw [h]; decide
    · exact isdigit_not_isspace (isdigit_of_mem_natToString h)
  · exact isdigit_not_isspace (isdigit_of_mem_natToString h)

/-- C17 (as stated, refuted): for a packet whose machine code is `a","x":"y`,
the text of `toJson` reads back as five entries, among them the key `x`, and
`machine_code` reads back as `a`; for a packet whose machine code holds a line
break, the text holds that line break. -/
theorem toJson_breaks_on_quote :
    (parseJson (SecurePacketCpp.mk "a\",\"x\":\"y".toList 1000 "n".toList
        "s".toList).toJson).length = 5
      ∧ StdMap.at (parseJson (SecurePacketCpp.mk "a\",\"x\":\"y".toList 1000 "n".toList
        "s".toList).toJson) "x".toList = "y".toList
      ∧ StdMap.at (parseJson (SecurePacketCpp.mk "a\",\"x\":\"y".toList 1000 "n".toList
        "s".toList).toJson) "machine_code".toList = "a".toList
      ∧ '\n' ∈ (SecurePacketCpp.mk "a\nb".toList 1000 "n".toList "s".toList).toJson := by
  decide

/-- C17 (amended): for every packet, `toJson` returns the text
`{"machine_code":"M","nonce":"N","signature":"S","timestamp":"T"}`, the fields
copied as they are and the timestamp in decimal. When the machine code, the
nonce and the signature contain no double quote, this text reads back as
exactly the four entries `machine_code`, `nonce`, `signature`, `timestamp` with
the packet's values; when they contain no white space, the text contains no
white space. -/
theorem toJson_four_entries (p : SecurePacketCpp) :
    p.toJson = "\x7b\"machine_code\":\"".toList ++ p.machineCode
        ++ "\",\"nonce\":\"".toList ++ p.nonce
        ++ "\",\"signature\":\"".toList ++ p.signature
        ++ "\",\"timestamp\":\"".toList ++ to_string p.timestamp ++ "\"\x7d".toList
      ∧ ('"' ∉ p.machineCode → '"' ∉ p.nonce → '"' ∉ p.signature →
          parseJson p.toJson =
            [("machine_code".toList, p.machineCode), ("nonce".toList, p.nonce),
              ("signature".toList, p.signature),
              ("timestamp".toList, to_string p.timestamp)])
      ∧ ((∀ ch ∈ p.machineCode, isspace ch = false) → (∀ ch ∈ p.nonce, isspace ch = false) →
          (∀ ch ∈ p.signature, isspace ch = false) → ∀ ch ∈ p.toJson, isspace ch = false) := by
  refine ⟨toJson_text p, ?_, ?_⟩
  · intro hmc hn hs
    rw [SecurePacketCpp.toJson, toMap_eq,
      parseJson_buildJson_four _ _ _ _ _ _ _ _ (by decide) hmc (by decide) hn (by decide) hs
        (by decide) (quote_not_mem_to_string _)]
    rfl
  · intro hmc hn hs ch hch
    rw [toJson_text] at hch
    simp only [List.mem_append] at hch
    have hlit : ∀ lit : Str, (∀ x ∈ lit, isspace x = false) → ch ∈ lit → isspace ch = false :=
      fun lit h hx => h ch hx
    rcases hch with (((((((h | h) | h) | h) | h) | h) | h) | h) | h
    · exact hlit _ (by decide) h
    · exact hmc ch h
    · exact hlit _ (by decide) h
    · exact hn ch h
    · exact hlit _ (by decide) h
    · exact hs ch h
    · exact hlit _ (by decide) h
    · exact isspace_false_of_mem_to_string h
    · exact hlit _ (by decide) h

/-- C17 (amended) at a concrete packet: the text for the packet made from
`ABC123` contains no white space. -/
theorem toJson_four_entries_witness :
    ∀ ch ∈ (SecurePacketCpp.create sampleCrypto sampleSecret 1000 sampleRandom
        "ABC123".toList).toJson, isspace ch = false :=
  (toJson_four_entries (SecurePacketCpp.create sampleCrypto sampleSecret 1000 sampleRandom
    "ABC123".toList)).2.2 (by decide) (by decide) (by decide)

/-! ## Claims about the Qt secure client -/

/-- C16 (evaluation of the code): in the request that each of `requestLicense`,
`verifyLicenseOnline` and `getLicenseInfo` of the Qt secure client posts, the
`secure_packet` member is the compact JSON text of the packet itself
(`packet.toJson()`), stored as a string; no Base64 encoding is applied. With the
concrete collaborator the member differs from the Base64 encoding of that
text. -/
theorem qt_secure_packet_is_plain_json (qt : QtLib) (S : Str) (now requestTime : Int)
    (client : QtSecureLicenseClient) (machineCode userInfo licenseKey : Str) :
    (client.requestLicense qt S now requestTime machineCode userInfo).json.value
        "secure_packet".toList
        = some (.string ((SecurePacket.create qt S now machineCode).toJson qt))
      ∧ (client.verifyLicenseOnline qt S now requestTime machineCode licenseKey).json.value
        "secure_packet".toList
        = some (.string ((SecurePacket.create qt S now machineCode).toJson qt))
      ∧ (client.getLicenseInfo qt S now requestTime machineCode).json.value
        "secure_packet".toList
        = some (.string ((SecurePacket.create qt S now machineCode).toJson qt))
      ∧ (sampleQtClient.requestLicense sampleQt sampleSecret 1000 1000 "ABC123".toList
          "me".toList).json.value "secure_packet".toList
        ≠ some (.string (sampleQt.toBase64
            ((SecurePacket.create sampleQt sampleSecret 1000 "ABC123".toList).toJson sampleQt))) := by
  refine ⟨rfl, rfl, rfl, ?_⟩
  set_option maxRecDepth 100000 in decide

/-! ## Lemmas: splitting a text at its first bar -/

theorem split_at_first_bar : ∀ (a b x y : Str), '|' ∉ a → '|' ∉ b →
    a ++ '|' :: x = b ++ '|' :: y → a = b ∧ x = y := by
  intro a
  induction a with
  | nil =>
    intro b x y _ hb h
    cases b with
    | nil => simpa using h
    | cons c cs =>
      simp only [List.nil_append, List.cons_append, List.cons.injEq] at h
      exact absurd (by rw [← h.1]; simp) hb
  | cons c cs ih =>
    intro b x y ha hb h
    cases b with
    | nil =>
      simp only [List.nil_append, List.cons_append, List.cons.injEq] at h
      exact absurd (by rw [h.1]; simp) ha
    | cons d ds =>
      simp only [List.cons_append, List.cons.injEq] at h
      simp only [List.mem_cons, not_or] at ha hb
      obtain ⟨h1, h2⟩ := ih ds x y ha.2 hb.2 h.2
      exact ⟨by rw [h.1, h1], h2⟩

theorem bar_not_mem_to_string (x : Int) : '|' ∉ to_string x := by
  intro hq
  unfold to_string at hq
  split at hq
  · simp only [List.mem_cons] at hq
    rcases hq with hq | hq
    · revert hq; decide
    · have := isdigit_of_mem_natToString hq
      revert this; decide
  · have := isdigit_of_mem_natToString hq
    revert this; decide

/-! ## Claims about secrets, signed text and the age check -/

/-- C24: a packet created under the secret `S` does not verify once the AppSecret
has been set to a different secret `S'`, at any clock reading and for any
`maxAgeSeconds`: the signed text under `S'` differs from the one under `S`
(and the HMAC key differs), and HMAC-SHA256 gives different outputs for these
two different key/message pairs. -/
theorem other_secret_rejects (c : Crypto) (S S' machineCode : Str) (T now maxAge : Int)
    (randomBytes : Nat → Byte) (hne : S ≠ S')
    (hhmac : S' ≠ S ∨
        signedText S' (SecurePacketCpp.create c S T randomBytes machineCode) ≠
          signedText S (SecurePacketCpp.create c S T randomBytes machineCode) →
      c.hmacSha256 S' (signedText S' (SecurePacketCpp.create c S T randomBytes machineCode)) ≠
        c.hmacSha256 S (signedText S (SecurePacketCpp.create c S T randomBytes machineCode))) :
    signedText S' (SecurePacketCpp.create c S T randomBytes machineCode) ≠
        signedText S (SecurePacketCpp.create c S T randomBytes machineCode)
      ∧ (SecurePacketCpp.create c S T randomBytes machineCode).verify c (setAppSecret S S') now
          maxAge = false := by
  have htext : signedText S' (SecurePacketCpp.create c S T randomBytes machineCode) ≠
      signedText S (SecurePacketCpp.create c S T randomBytes machineCode) := by
    intro h
    rw [signedText_eq, signedText_eq] at h
    have h1 := List.append_cancel_left h
    simp only [List.cons.injEq, true_and] at h1
    have h2 := List.append_cancel_left h1
    simp only [List.cons.injEq, true_and] at h2
    have h3 := List.append_cancel_left h2
    exact hne (List.append_cancel_left h3).symm
  refine ⟨htext, ?_⟩
  cases hv : (SecurePacketCpp.create c S T randomBytes machineCode).verify c
      (setAppSecret S S') now maxAge with
  | false => rfl
  | true =>
    exfalso
    have hq := ((verify_iff_sub64 c S' now _ maxAge).1 hv).2
    have hsig : (SecurePacketCpp.create c S T randomBytes machineCode).signature =
        toHex (c.hmacSha256 S
          (signedText S (SecurePacketCpp.create c S T randomBytes machineCode))).bytes := rfl
    rw [hsig] at hq
    exact hhmac (Or.inl (Ne.symm hne)) (Digest.eq_of_bytes (toHex_injective hq)).symm

/-- C24 at concrete secrets: a packet created under one secret is rejected under
the other. -/
theorem other_secret_rejects_witness :
    (SecurePacketCpp.create sampleCrypto sampleSecret 1000 sampleRandom "ABC123".toList).verify
      sampleCrypto (setAppSecret sampleSecret otherSecret) 1250 300 = false :=
  (other_secret_rejects sampleCrypto sampleSecret otherSecret "ABC123".toList 1000 1250 300
    sampleRandom (by decide) (fun _ => by decide)).2

/-- C25: for machine codes that contain no `|`, two packets whose signed texts
under the same secret are equal have the same machine code, the same timestamp
and the same nonce. -/
theorem signedText_determines_packet (S : Str) (p q : SecurePacketCpp)
    (hp : '|' ∉ p.machineCode) (hq : '|' ∉ q.machineCode)
    (h : signedText S p = signedText S q) :
    p.machineCode = q.machineCode ∧ p.timestamp = q.timestamp ∧ p.nonce = q.nonce := by
  rw [signedText_eq, signedText_eq] at h
  obtain ⟨hmc, h1⟩ := split_at_first_bar _ _ _ _ hp hq h
  obtain ⟨hts, h2⟩ := split_at_first_bar _ _ _ _ (bar_not_mem_to_string _)
    (bar_not_mem_to_string _) h1
  refine ⟨hmc, to_string_injective hts, ?_⟩
  rw [hts] at h2
  exact List.append_cancel_right h2

/-- C25 at a concrete packet: a packet with the signed text of the packet made
from `ABC123` has its machine code, timestamp and nonce. -/
theorem signedText_determines_packet_witness :
    (SecurePacketCpp.create sampleCrypto sampleSecret 1000 sampleRandom "ABC123".toList).nonce
      = ({ SecurePacketCpp.create sampleCrypto sampleSecret 1000 sampleRandom "ABC123".toList
            with signature := [] } : SecurePacketCpp).nonce :=
  (signedText_determines_packet sampleSecret
    (SecurePacketCpp.create sampleCrypto sampleSecret 1000 sampleRandom "ABC123".toList)
    { SecurePacketCpp.create sampleCrypto sampleSecret 1000 sampleRandom "ABC123".toList
        with signature := [] } (by decide) (by decide) rfl).2.2

/-- C26: the age check is one-sided. For a packet whose signature is valid and
whose timestamp (a 64-bit integer) is later than the clock reading `now`,
`verify` returns true for every `maxAgeSeconds ≥ 0`, however far ahead the
timestamp lies. -/
theorem future_timestamp_accepted (c : Crypto) (S : Str) (p : SecurePacketCpp)
    (now maxAge : Int) (hnow : 0 ≤ now) (hts : p.timestamp < 2 ^ 63) (hfuture : now < p.timestamp)
    (hmax : 0 ≤ maxAge)
    (hvalid : p.signature =
      generateSignature c S (combinedData p.machineCode p.timestamp p.nonce) p.timestamp) :
    p.verify c S now maxAge = true := by
  have hexact : inInt64 (now - p.timestamp) := by
    unfold inInt64; constructor <;> omega
  rw [verify_iff_of_exact c S now p maxAge hexact]
  exact ⟨by omega, hvalid⟩

/-- C26 at a concrete packet: stamped at the largest 64-bit value, verified at
clock reading 1000 with `maxAgeSeconds = 0`. -/
theorem future_timestamp_accepted_witness :
    SecurePacketCpp.verify sampleCrypto sampleSecret 1000
      { machineCode := "ABC123".toList, timestamp := 9223372036854775807, nonce := "n".toList,
        signature := generateSignature sampleCrypto sampleSecret
          (combinedData "ABC123".toList 9223372036854775807 "n".toList) 9223372036854775807 }
      0 = true :=
  future_timestamp_accepted sampleCrypto sampleSecret _ 1000 0 (by decide) (by norm_num)
    (by decide) (by decide) rfl

/-- C27: serialisation performs no escaping. The text of `toJson` holds the
machine code exactly as it is, and for the packet whose machine code is `a"b`
(a double quote inside) `fromJson` applied to that text does not return the
packet: the reader stops at the inner quote, finds no timestamp, and the
`std::invalid_argument` of `std::stoll` leaves `fromJson`. -/
theorem fromJson_toJson_fails_on_quote :
    (∃ p : SecurePacketCpp, '"' ∈ p.machineCode ∧
        SecurePacketCpp.fromJson p.toJson ≠ .ok p)
      ∧ '"' ∈ (SecurePacketCpp.mk "a\"b".toList 1000 "n".toList "s".toList).machineCode
      ∧ SecurePacketCpp.fromJson
          (SecurePacketCpp.mk "a\"b".toList 1000 "n".toList "s".toList).toJson
          = .error .invalid_argument
      ∧ (SecurePacketCpp.mk "a\"b".toList 1000 "n".toList "s".toList).toJson
          = "\x7b\"machine_code\":\"a\"b\",\"nonce\":\"n\",\"signature\":\"s\",\"timestamp\":\"1000\"\x7d".toList := by
  have h1 : '"' ∈ (SecurePacketCpp.mk "a\"b".toList 1000 "n".toList "s".toList).machineCode := by
    decide
  have h2 : SecurePacketCpp.fromJson
      (SecurePacketCpp.mk "a\"b".toList 1000 "n".toList "s".toList).toJson
      = .error .invalid_argument := by decide
  refine ⟨⟨_, h1, ?_⟩, h1, h2, by decide⟩
  rw [h2]
  exact fun h => by cases h

/-! ## Further claims about the offline license check and the encrypted machine code -/

/-- C22 (as stated, refuted): with no license file, and with a license file
whose content is not `Sha256(machineCode)`, `VerifyLicense` returns the same
result, false. -/
theorem missing_and_mismatch_same_result :
    sampleFs.content "license.dat".toList = none
      ∧ wrongLicenseFs.content "license.dat".toList = some "WRONG".toList
      ∧ "WRONG".toList ≠ Sha256 sampleProvider (LicenseManager.mk "ABC123".toList).m_machineCode
      ∧ (LicenseManager.mk "ABC123".toList).VerifyLicense sampleProvider sampleFs
          "license.dat".toList
        = (LicenseManager.mk "ABC123".toList).VerifyLicense sampleProvider wrongLicenseFs
          "license.dat".toList := by
  decide

/-- C22 (amended): the offline license check does not tell a missing license file
from a mismatching one. When no file exists at the path `VerifyLicense` returns
false, when a file exists whose content is not `Sha256(machineCode)` it returns
false as well, so the two results are equal. -/
theorem missing_and_mismatch_both_false (prov : HashProvider) (mgr : LicenseManager)
    (fsMissing fsMismatch : FileSystem) (path content : Str)
    (hmissing : fsMissing.content path = none)
    (hpresent : fsMismatch.content path = some content)
    (hmismatch : content ≠ Sha256 prov mgr.m_machineCode) :
    mgr.VerifyLicense prov fsMissing path = false
      ∧ mgr.VerifyLicense prov fsMismatch path = false
      ∧ mgr.VerifyLicense prov fsMissing path = mgr.VerifyLicense prov fsMismatch path := by
  have h1 : mgr.VerifyLicense prov fsMissing path = false := by
    simp [LicenseManager.VerifyLicense, hmissing]
  have h2 : mgr.VerifyLicense prov fsMismatch path = false := by
    simp [LicenseManager.VerifyLicense, hpresent, hmismatch]
  exact ⟨h1, h2, by rw [h1, h2]⟩

/-- C22 (amended) at concrete file systems: no file, and a file holding `WRONG`. -/
theorem missing_and_mismatch_both_false_witness :
    (LicenseManager.mk "ABC123".toList).VerifyLicense sampleProvider sampleFs
        "license.dat".toList = false
      ∧ (LicenseManager.mk "ABC123".toList).VerifyLicense sampleProvider wrongLicenseFs
        "license.dat".toList = false :=
  ⟨(missing_and_mismatch_both_false sampleProvider (LicenseManager.mk "ABC123".toList) sampleFs
      wrongLicenseFs "license.dat".toList "WRONG".toList rfl rfl (by decide)).1,
   (missing_and_mismatch_both_false sampleProvider (LicenseManager.mk "ABC123".toList) sampleFs
      wrongLicenseFs "license.dat".toList "WRONG".toList rfl rfl (by decide)).2.1⟩

/-- Reading back the text of `toJson` for a packet whose texts contain no double
quote and whose timestamp is a 64-bit integer. -/
theorem fromJson_roundtrip (p : SecurePacketCpp)
    (hmc : '"' ∉ p.machineCode) (hnonce : '"' ∉ p.nonce) (hsig : '"' ∉ p.signature)
    (hts : inInt64 p.timestamp) :
    SecurePacketCpp.fromJson p.toJson = .ok p := by
  have hparse := parseJson_buildJson_four
    "machine_code".toList p.machineCode "nonce".toList p.nonce
    "signature".toList p.signature "timestamp".toList (to_string p.timestamp)
    (by decide) hmc (by decide) hnonce (by decide) hsig (by decide)
    (quote_not_mem_to_string _)
  have hmap : StdMap.assign (StdMap.assign (StdMap.assign (StdMap.assign []
      "machine_code".toList p.machineCode) "nonce".toList p.nonce)
      "signature".toList p.signature) "timestamp".toList (to_string p.timestamp) =
      [("machine_code".toList, p.machineCode), ("nonce".toList, p.nonce),
        ("signature".toList, p.signature), ("timestamp".toList, to_string p.timestamp)] := rfl
  unfold SecurePacketCpp.fromJson SecurePacketCpp.toJson
  rw [toMap_eq, hparse, hmap]
  have h1 : StdMap.at [("machine_code".toList, p.machineCode), ("nonce".toList, p.nonce),
        ("signature".toList, p.signature), ("timestamp".toList, to_string p.timestamp)]
        "timestamp".toList = to_string p.timestamp := rfl
  have h2 : StdMap.at [("machine_code".toList, p.machineCode), ("nonce".toList, p.nonce),
        ("signature".toList, p.signature), ("timestamp".toList, to_string p.timestamp)]
        "machine_code".toList = p.machineCode := rfl
  have h3 : StdMap.at [("machine_code".toList, p.machineCode), ("nonce".toList, p.nonce),
        ("signature".toList, p.signature), ("timestamp".toList, to_string p.timestamp)]
        "nonce".toList = p.nonce := rfl
  have h4 : StdMap.at [("machine_code".toList, p.machineCode), ("nonce".toList, p.nonce),
        ("signature".toList, p.signature), ("timestamp".toList, to_string p.timestamp)]
        "signature".toList = p.signature := rfl
  simp only [h1, h2, h3, h4, stoll_to_string hts]

theorem quote_not_mem_toHex (l : List Byte) : '"' ∉ toHex l := by
  intro h
  have hx : '"' ∈ lowerHexDigits := mem_toHex h
  revert hx; decide

/-- With the identity Base64 of `sampleCrypto`, decoding undoes encoding. -/
theorem sampleCrypto_base64 (data : Str) (h : data ≠ []) :
    base64Decode sampleCrypto (base64Encode sampleCrypto data) = data := by
  have hpos : 0 < data.length := List.length_pos.mpr h
  show (if ((data.length : Nat) : Int) > 0 then
    data.take ((data.length : Nat) : Int).toNat else []) = data
  rw [if_pos (by exact_mod_cast hpos)]
  simp

theorem toJson_ne_nil (p : SecurePacketCpp) : p.toJson ≠ [] := by
  rw [toJson_text]
  exact List.cons_ne_nil _ _

theorem encryptMachineCode_eq (c : Crypto) (S : Str) (T : Int) (randomBytes : Nat → Byte)
    (m : Str) :
    encryptMachineCode c S T randomBytes m =
      base64Encode c (SecurePacketCpp.create c S T randomBytes m).toJson := rfl

/-- C23: for a machine code `m` made of hexadecimal digits, any AppSecret, and
clock readings `T ≤ T'` with `T' - T ≤ maxAgeSeconds`, `decryptMachineCode` at
`T'` applied to the output of `encryptMachineCode(m)` at `T` returns `m`, the
Base64 layer giving back the text it encoded. -/
theorem decrypt_encrypt (c : Crypto) (S m : Str) (T T' maxAge : Int)
    (randomBytes : Nat → Byte)
    (hm : ∀ ch ∈ m, isxdigit ch = true)
    (hT : 0 ≤ T) (hT64 : T < 2 ^ 63) (hT'64 : T' < 2 ^ 63) (_hle : T ≤ T')
    (hage : T' - T ≤ maxAge)
    (hbase64 : base64Decode c (base64Encode c (SecurePacketCpp.create c S T randomBytes m).toJson)
      = (SecurePacketCpp.create c S T randomBytes m).toJson) :
    decryptMachineCode c S T' (encryptMachineCode c S T randomBytes m) maxAge = m := by
  have hnonce : '"' ∉ (SecurePacketCpp.create c S T randomBytes m).nonce :=
    quote_not_mem_of_isalnum (fun ch hch => isalnum_of_mem_charset _ (mem_generateSalt hch))
  have hsig : '"' ∉ (SecurePacketCpp.create c S T randomBytes m).signature :=
    quote_not_mem_toHex _
  have hts : inInt64 (SecurePacketCpp.create c S T randomBytes m).timestamp := by
    show inInt64 T
    unfold inInt64; constructor <;> omega
  have hfrom := fromJson_roundtrip (SecurePacketCpp.create c S T randomBytes m)
    (quote_not_mem_of_isxdigit hm) hnonce hsig hts
  have hverify : (SecurePacketCpp.create c S T randomBytes m).verify c S T' maxAge = true := by
    have hexact : inInt64 (T' - (SecurePacketCpp.create c S T randomBytes m).timestamp) := by
      show inInt64 (T' - T)
      unfold inInt64; constructor <;> omega
    rw [verify_iff_of_exact c S T' _ maxAge hexact]
    exact ⟨hage, rfl⟩
  rw [decryptMachineCode_eq, encryptMachineCode_eq, hbase64, hfrom]
  simp only [hverify, if_true]
  rfl

/-- C23 at concrete values: encrypted at 1000, decrypted at 1250 with
`maxAgeSeconds = 300`. -/
theorem decrypt_encrypt_witness :
    decryptMachineCode sampleCrypto sampleSecret 1250
      (encryptMachineCode sampleCrypto sampleSecret 1000 sampleRandom "0f3a9c".toList) 300
      = "0f3a9c".toList :=
  decrypt_encrypt sampleCrypto sampleSecret "0f3a9c".toList 1000 1250 300 sampleRandom
    (by decide) (by decide) (by norm_num) (by norm_num) (by decide) (by decide)
    (sampleCrypto_base64 _ (toJson_ne_nil _))

/-! ## Further claims about the reply readers of the protocol client -/

theorem startsWith_append : ∀ (needle b : Str), startsWith needle (needle ++ b) = true := by
  intro needle
  induction needle with
  | nil => intro b; rfl
  | cons a as ih =>
    intro b
    simp only [List.cons_append, startsWith, decide_True, Bool.true_and]
    exact ih b

/-- The search `std::string::find(str, pos)` returns the least index at which
`needle` occurs. -/
theorem findStrAux_first (needle rest : Str) : ∀ (pre : Str) (i : Nat),
    (∀ p q, pre ++ needle ++ rest = p ++ needle ++ q → pre.length ≤ p.length) →
    findStrAux needle (pre ++ needle ++ rest) i = some (i + pre.length) := by
  intro pre
  induction pre with
  | nil =>
    intro i _
    simp only [List.nil_append, List.length_nil, Nat.add_zero]
    cases h : needle ++ rest with
    | nil =>
      have hn : needle = [] := (List.append_eq_nil.mp h).1
      simp [findStrAux, hn]
    | cons x xs =>
      rw [findStrAux, ← h, startsWith_append]
      rfl
  | cons x pre ih =>
    intro i hmin
    have hno : startsWith needle (x :: (pre ++ needle ++ rest)) = false := by
      cases hs : startsWith needle (x :: (pre ++ needle ++ rest)) with
      | false => rfl
      | true =>
        exfalso
        obtain ⟨b, hb⟩ := startsWith_split _ _ hs
        have := hmin [] b (by simpa using hb)
        simp at this
    have hrec := ih (i + 1) (fun p q hpq => by
      have := hmin (x :: p) q (by simp only [List.cons_append, hpq])
      simpa using this)
    show findStrAux needle (x :: (pre ++ needle ++ rest)) i = some (i + (pre.length + 1))
    rw [findStrAux, hno, if_neg Bool.false_ne_true, hrec, Nat.add_assoc, Nat.add_comm 1]

theorem findStr_first (json needle pre rest : Str) (hs : json = pre ++ needle ++ rest)
    (hmin : ∀ p q, json = p ++ needle ++ q → pre.length ≤ p.length) :
    findStr json needle 0 = some pre.length := by
  subst hs
  simp only [findStr, Nat.zero_le, if_true, List.drop_zero]
  rw [findStrAux_first needle rest pre 0 hmin, Nat.zero_add]

/-- C28: when the first occurrence of the search key `"<key>":` in `json` is at
`pre`, and the text after it is `a"v"rest` with no double quote in `a` and `v`
(so `v` is the text between the first two double quotes after that occurrence),
`extractJsonValue json key` is `v`, whatever `a` is. -/
theorem extractJsonValue_first_quotes (json key pre a v rest : Str)
    (hs : json = pre ++ searchKey key ++ (a ++ '"' :: (v ++ '"' :: rest)))
    (hfirst : ∀ p q, json = p ++ searchKey key ++ q → pre.length ≤ p.length)
    (ha : '"' ∉ a) (hv : '"' ∉ v) :
    extractJsonValue json key = v := by
  have hpos := findStr_first json (searchKey key) pre _ hs hfirst
  have hstart : find json '"' (pre.length + (searchKey key).length)
      = some (pre.length + (searchKey key).length + a.length) :=
    find_of_split json (pre ++ searchKey key) a (v ++ '"' :: rest) '"' _ hs
      (by rw [List.length_append]) ha
  have hend : find json '"' (pre.length + (searchKey key).length + a.length + 1)
      = some (pre.length + (searchKey key).length + a.length + 1 + v.length) :=
    find_of_split json (pre ++ searchKey key ++ a ++ ['"']) v rest '"' _
      (by rw [hs]; simp) (by simp only [List.length_append, List.length_singleton]) hv
  unfold extractJsonValue
  rw [hpos]
  dsimp only
  rw [hstart]
  dsimp only
  rw [hend]
  dsimp only
  exact substr_of_split json (pre ++ searchKey key ++ a ++ ['"']) v ('"' :: rest) _ _
    (by rw [hs]; simp) (by simp only [List.length_append, List.length_singleton])
    (by omega)

/-- C28 on the reply `{"license_key":null,"message":"ok"}`: the value of
`license_key` is not a string, and the reader returns the name of the next key. -/
theorem extractJsonValue_first_quotes_witness :
    extractJsonValue "\x7b\"license_key\":null,\"message\":\"ok\"\x7d".toList
      "license_key".toList = "message".toList :=
  extractJsonValue_first_quotes "\x7b\"license_key\":null,\"message\":\"ok\"\x7d".toList
    "license_key".toList "\x7b".toList "null,".toList "message".toList ":\"ok\"\x7d".toList
    (by decide)
    (by
      intro p q h
      cases p with
      | nil =>
        have hh : (some '\x7b' : Option Char) = some '"' := congrArg List.head? h
        exact absurd hh (by decide)
      | cons x xs => simp)
    (by decide) (by decide)

/-! ## Claims about the license backend -/

/-- C21: in every backend state, `LicenseBackend::requestLicense` and
`LicenseBackend::verifyLicense` called with an empty machine code return a
failure result (`success = false`, `valid = false`) with a non-empty error, and
the log of transport calls is empty: neither the protocol client nor the
transport is invoked. -/
theorem empty_machine_code_refused (c : Crypto) (s_appSecret : Str) (now : Int)
    (randomBytes : Nat → Byte) (transport : HttpTransport) (self : LicenseBackend)
    (userInfo licenseKey : Str) :
    (∃ r, self.requestLicense c s_appSecret now randomBytes transport [] userInfo
        = .returns (r, []) ∧ r.success = false ∧ r.error ≠ []) ∧
    (∃ r, self.verifyLicense c s_appSecret now randomBytes transport [] licenseKey
        = .returns (r, []) ∧ r.valid = false ∧ r.error ≠ []) := by
  obtain ⟨ptr, url⟩ := self
  cases ptr <;>
    exact ⟨⟨_, rfl, rfl, by decide⟩, ⟨_, rfl, rfl, by decide⟩⟩

/-- C29 fails on the code: after `setServerUrl` with a non-empty URL `u :: us`
and then `setServerUrl("")`, the member `m_client` is a non-null pointer to a
deleted client; `requestLicense` with a non-empty machine code `m :: ms` then
uses the deleted client, whereas with a null pointer it returns the error
`Client not initialized. Please set server URL first.` and calls nothing. -/
theorem setServerUrl_empty_leaves_dangling_client (c : Crypto) (s_appSecret : Str)
    (now : Int) (randomBytes : Nat → Byte) (transport : HttpTransport)
    (u m : Char) (us ms userInfo : Str) :
    (LicenseBackend.new.setServerUrl (u :: us)).bind (fun b => b.setServerUrl [])
      = .returns { m_client := .dangling, m_serverUrl := [] } ∧
    LicenseBackend.requestLicense c s_appSecret now randomBytes transport
        { m_client := .dangling, m_serverUrl := [] } (m :: ms) userInfo
      = .undefined ∧
    LicenseBackend.requestLicense c s_appSecret now randomBytes transport
        { m_client := .null, m_serverUrl := [] } (m :: ms) userInfo
      = .returns
        ({ success := false, licenseKey := [], message := [], expiresAt := [],
           error := "Client not initialized. Please set server URL first.".toList }, []) :=
  ⟨rfl, rfl, rfl⟩

/-! ## Further claims about `parseJson`: termination, bounds, repeated keys -/

theorem char_eq_of_toNat_eq {a b : Char} (h : a.toNat = b.toNat) : a = b := by
  rw [← Char.ofNat_toNat a, ← Char.ofNat_toNat b, h]

theorem strLt_irrefl : ∀ (a : Str), strLt a a = false := by
  intro a
  induction a with
  | nil => rfl
  | cons x xs ih => simp [strLt, ih]

theorem strLt_trans : ∀ (a b c : Str), strLt a b = true → strLt b c = true →
    strLt a c = true := by
  intro a
  induction a with
  | nil =>
    intro b c hab hbc
    cases b with
    | nil => simp [strLt] at hab
    | cons y ys =>
      cases c with
      | nil => simp [strLt] at hbc
      | cons z zs => rfl
  | cons x xs ih =>
    intro b c hab hbc
    cases b with
    | nil => simp [strLt] at hab
    | cons y ys =>
      cases c with
      | nil => simp [strLt] at hbc
      | cons z zs =>
        simp only [strLt] at hab hbc ⊢
        by_cases h1 : x.toNat < y.toNat
        · by_cases h2 : y.toNat < z.toNat
          · simp [show x.toNat < z.toNat by omega]
          · simp only [h2, if_false] at hbc
            by_cases h3 : z.toNat < y.toNat
            · simp [h3] at hbc
            · simp [show x.toNat < z.toNat by omega]
        · simp only [h1, if_false] at hab
          by_cases h1' : y.toNat < x.toNat
          · simp [h1'] at hab
          · simp only [h1', if_false] at hab
            have hxy : x.toNat = y.toNat := by omega
            by_cases h2 : y.toNat < z.toNat
            · simp [show x.toNat < z.toNat by omega]
            · simp only [h2, if_false] at hbc
              by_cases h3 : z.toNat < y.toNat
              · simp [h3] at hbc
              · simp only [h3, if_false] at hbc
                have h4 : ¬ x.toNat < z.toNat := by omega
                have h5 : ¬ z.toNat < x.toNat := by omega
                simp only [h4, h5, if_false]
                exact ih ys zs hab hbc

theorem strLt_total : ∀ (a b : Str), strLt a b = false → strLt b a = false → a = b := by
  intro a
  induction a with
  | nil =>
    intro b hab _
    cases b with
    | nil => rfl
    | cons y ys => simp [strLt] at hab
  | cons x xs ih =>
    intro b hab hba
    cases b with
    | nil => simp [strLt] at hba
    | cons y ys =>
      simp only [strLt] at hab hba
      by_cases h1 : x.toNat < y.toNat
      · simp [h1] at hab
      · by_cases h2 : y.toNat < x.toNat
        · simp [h2] at hba
        · simp only [h1, h2, if_false] at hab hba
          rw [char_eq_of_toNat_eq (show x.toNat = y.toNat by omega), ih ys hab hba]

/-- Reading a key right after assigning it gives the assigned value. -/
theorem at_assign_same : ∀ (m : StdMap) (k v : Str), StdMap.at (StdMap.assign m k v) k = v := by
  intro m
  induction m with
  | nil => intro k v; simp [StdMap.assign, StdMap.at, strLt_irrefl]
  | cons e rest ih =>
    intro k v
    obtain ⟨k', v'⟩ := e
    simp only [StdMap.assign]
    by_cases h1 : strLt k k' = true
    · simp [h1, StdMap.at, strLt_irrefl]
    · by_cases h2 : strLt k' k = true
      · simp [h1, h2, StdMap.at, ih]
      · simp [h1, h2, StdMap.at]

/-- Assigning a key leaves the value read for every other key unchanged. -/
theorem at_assign_other : ∀ (m : StdMap) (k v j : Str), k ≠ j →
    StdMap.at (StdMap.assign m k v) j = StdMap.at m j := by
  intro m
  induction m with
  | nil =>
    intro k v j hkj
    simp only [StdMap.assign, StdMap.at]
    by_cases h1 : strLt j k = true
    · simp [h1]
    · by_cases h2 : strLt k j = true
      · simp [h1, h2]
      · exact absurd (strLt_total k j (by simpa using h2) (by simpa using h1)) hkj
  | cons e rest ih =>
    intro k v j hkj
    obtain ⟨k', v'⟩ := e
    simp only [StdMap.assign]
    by_cases h1 : strLt k k' = true
    · simp only [h1, if_true]
      by_cases h3 : strLt j k = true
      · have h4 := strLt_trans j k k' h3 h1
        simp [StdMap.at, h3, h4]
      · by_cases h5 : strLt k j = true
        · rw [StdMap.at]
          simp [h3, h5]
        · exact absurd (strLt_total k j (by simpa using h5) (by simpa using h3)) hkj
    · by_cases h2 : strLt k' k = true
      · simp only [h1, h2, if_true, if_false, StdMap.at]
        rw [ih k v j hkj]
      · have hk : k = k' := strLt_total k k' (by simpa using h1) (by simpa using h2)
        subst hk
        simp only [h1, if_false, StdMap.at]
        by_cases h3 : strLt j k = true
        · simp [h3]
        · by_cases h5 : strLt k j = true
          · simp [h3, h5]
          · exact absurd (strLt_total k j (by simpa using h5) (by simpa using h3)) hkj

/-- After a run of assignments, a key assigned in the run reads as the value of
its last assignment, and every other key reads as before. -/
theorem at_assignAll : ∀ (es : List (Str × Str)) (m : StdMap) (k : Str),
    (∀ v, lastValue es k = some v → StdMap.at (assignAll m es) k = v) ∧
    (lastValue es k = none → StdMap.at (assignAll m es) k = StdMap.at m k) := by
  intro es
  induction es with
  | nil =>
    intro m k
    exact ⟨fun v h => by simp [lastValue] at h, fun _ => rfl⟩
  | cons e es ih =>
    intro m k
    obtain ⟨k', v'⟩ := e
    have hrun : assignAll m ((k', v') :: es) = assignAll (StdMap.assign m k' v') es := rfl
    rw [hrun]
    obtain ⟨ih1, ih2⟩ := ih (StdMap.assign m k' v') k
    cases hl : lastValue es k with
    | some w =>
      refine ⟨fun v h => ?_, fun h => ?_⟩
      · simp only [lastValue, hl, Option.some.injEq] at h
        exact h ▸ ih1 w hl
      · simp [lastValue, hl] at h
    | none =>
      by_cases hk : k' = k
      · refine ⟨fun v h => ?_, fun h => ?_⟩
        · simp only [lastValue, hl, hk, if_true, Option.some.injEq] at h
          rw [ih2 hl, hk, at_assign_same, h]
        · simp [lastValue, hl, hk] at h
      · refine ⟨fun v h => ?_, fun _ => ?_⟩
        · simp [lastValue, hl, hk] at h
        · rw [ih2 hl, at_assign_other m k' v' k hk]

/-- The loop of `parseJson` expressed through the searches of one iteration. -/
theorem parseJsonLoop_unfold (json : Str) (fuel pos : Nat) (result : StdMap) :
    parseJsonLoop json (fuel + 1) pos result =
      match parseJsonStep json pos with
      | none => result
      | some q => parseJsonLoop json fuel (q.valueEnd + 1)
          (StdMap.assign result (q.key json) (q.value json)) := by
  rw [parseJsonLoop, parseJsonStep]
  split
  · cases find json '"' pos with
    | none => rfl
    | some keyStart =>
      dsimp only
      cases find json '"' (keyStart + 1) with
      | none => rfl
      | some keyEnd =>
        dsimp only
        cases find json '"' (keyEnd + 1) with
        | none => rfl
        | some valueStart =>
          dsimp only
          cases find json '"' (valueStart + 1) with
          | none => rfl
          | some valueEnd => rfl
  · rfl

/-- The positions found by one iteration are in increasing order and inside the
text. -/
theorem parseJsonStep_bounds {json : Str} {pos : Nat} {q : QuotePositions}
    (h : parseJsonStep json pos = some q) :
    pos ≤ q.keyStart ∧ q.keyStart < q.keyEnd ∧ q.keyEnd < q.valueStart ∧
      q.valueStart < q.valueEnd ∧ q.valueEnd < json.length := by
  unfold parseJsonStep at h
  split at h
  · cases h1 : find json '"' pos with
    | none => simp [h1] at h
    | some keyStart =>
      simp only [h1] at h
      cases h2 : find json '"' (keyStart + 1) with
      | none => simp [h2] at h
      | some keyEnd =>
        simp only [h2] at h
        cases h3 : find json '"' (keyEnd + 1) with
        | none => simp [h3] at h
        | some valueStart =>
          simp only [h3] at h
          cases h4 : find json '"' (valueStart + 1) with
          | none => simp [h4] at h
          | some valueEnd =>
            simp only [h4, Option.some.injEq] at h
            subst h
            have b1 := find_bounds h1
            have b2 := find_bounds h2
            have b3 := find_bounds h3
            have b4 := find_bounds h4
            dsimp only
            omega
  · simp at h

/-- The loop of `parseJson` is left within `fuel` iterations as soon as
`json.length < pos + fuel`. -/
theorem parseJsonTrace_total (json : Str) : ∀ (fuel pos : Nat),
    0 < fuel → json.length < pos + fuel → ∃ es, parseJsonTrace json fuel pos = some es := by
  intro fuel
  induction fuel with
  | zero => intro pos h; exact absurd h (by decide)
  | succ f ih =>
    intro pos _ hlen
    rw [parseJsonTrace]
    cases hq : parseJsonStep json pos with
    | none => exact ⟨[], rfl⟩
    | some q =>
      have b := parseJsonStep_bounds hq
      obtain ⟨es, hes⟩ := ih (q.valueEnd + 1) (by omega) (by omega)
      exact ⟨(q.key json, q.value json) :: es, by simp [hes]⟩

/-- The result of the loop of `parseJson` is the run of assignments of the
extracted pairs. -/
theorem parseJsonLoop_trace (json : Str) : ∀ (fuel pos : Nat) (result : StdMap)
    (es : List (Str × Str)), parseJsonTrace json fuel pos = some es →
    parseJsonLoop json fuel pos result = assignAll result es := by
  intro fuel
  induction fuel with
  | zero => intro pos result es h; simp [parseJsonTrace] at h
  | succ f ih =>
    intro pos result es h
    rw [parseJsonLoop_unfold]
    rw [parseJsonTrace] at h
    cases hq : parseJsonStep json pos with
    | none =>
      simp only [hq, Option.some.injEq] at h
      subst h
      rfl
    | some q =>
      simp only [hq, Option.map_eq_some'] at h
      obtain ⟨es', hes', rfl⟩ := h
      dsimp only
      rw [ih _ _ _ hes']
      rfl

/-- C30: on every text `json`, (1) the loop of `parseJson` is left within the
`json.length + 1` iterations that `parseJson` allows, and its result is the run
of assignments of the extracted pairs, so that every extracted key reads as the
value of its last occurrence; (2) an iteration either leaves the loop with the
result unchanged or continues at `valueEnd + 1`; (3) the quote positions of an
iteration satisfy `pos ≤ keyStart < keyEnd < valueStart < valueEnd < length`, so
the scan position strictly passes the last quote consumed and both extracted
substrings end inside the text. -/
theorem parseJson_terminates_in_bounds (json : Str) :
    (∃ es, parseJsonTrace json (json.length + 1) 0 = some es ∧
      parseJson json = assignAll [] es ∧
      ∀ k v, lastValue es k = some v → StdMap.at (parseJson json) k = v) ∧
    (∀ fuel pos result, parseJsonLoop json (fuel + 1) pos result =
      match parseJsonStep json pos with
      | none => result
      | some q => parseJsonLoop json fuel (q.valueEnd + 1)
          (StdMap.assign result (q.key json) (q.value json))) ∧
    (∀ pos q, parseJsonStep json pos = some q →
      pos ≤ q.keyStart ∧ q.keyStart < q.keyEnd ∧ q.keyEnd < q.valueStart ∧
      q.valueStart < q.valueEnd ∧ q.valueEnd < json.length ∧ pos < q.valueEnd + 1 ∧
      q.keyStart + 1 + (q.keyEnd - q.keyStart - 1) ≤ json.length ∧
      q.valueStart + 1 + (q.valueEnd - q.valueStart - 1) ≤ json.length ∧
      (q.key json).length = q.keyEnd - q.keyStart - 1 ∧
      (q.value json).length = q.valueEnd - q.valueStart - 1) := by
  refine ⟨?_, fun fuel pos result => parseJsonLoop_unfold json fuel pos result, ?_⟩
  · obtain ⟨es, hes⟩ := parseJsonTrace_total json (json.length + 1) 0 (by omega) (by omega)
    have hrun : parseJson json = assignAll [] es := parseJsonLoop_trace json _ _ _ _ hes
    refine ⟨es, hes, hrun, fun k v hkv => ?_⟩
    rw [hrun]
    exact (at_assignAll es [] k).1 v hkv
  · intro pos q hq
    have b := parseJsonStep_bounds hq
    refine ⟨b.1, b.2.1, b.2.2.1, b.2.2.2.1, b.2.2.2.2, by omega, by omega, by omega, ?_, ?_⟩
    · simp only [QuotePositions.key, substr, List.length_take, List.length_drop]
      omega
    · simp only [QuotePositions.value, substr, List.length_take, List.length_drop]
      omega

/-- C30 on the text `{"a":"1","b":"2","a":"3"}`: two iterations extract the key
`a`, and the result holds the value of the later one. -/
theorem parseJson_terminates_in_bounds_witness :
    parseJsonTrace "\x7b\"a\":\"1\",\"b\":\"2\",\"a\":\"3\"\x7d".toList 26 0
      = some [("a".toList, "1".toList), ("b".toList, "2".toList), ("a".toList, "3".toList)] ∧
    StdMap.at (parseJson "\x7b\"a\":\"1\",\"b\":\"2\",\"a\":\"3\"\x7d".toList) "a".toList
      = "3".toList := by
  obtain ⟨es, hes, _, hlast⟩ :=
    (parseJson_terminates_in_bounds "\x7b\"a\":\"1\",\"b\":\"2\",\"a\":\"3\"\x7d".toList).1
  have htrace : parseJsonTrace "\x7b\"a\":\"1\",\"b\":\"2\",\"a\":\"3\"\x7d".toList 26 0
      = some [("a".toList, "1".toList), ("b".toList, "2".toList), ("a".toList, "3".toList)] := by
    decide
  refine ⟨htrace, hlast _ _ ?_⟩
  have hes' : es = [("a".toList, "1".toList), ("b".toList, "2".toList),
      ("a".toList, "3".toList)] := Option.some.inj (hes.symm.trans htrace)
  rw [hes']
  decide

/-! ## Claims settled against the code: the age test of `decryptMachineCode` and the request bodies -/

/-- C7 fails on the code (evaluation at the failing input): a text that decodes
to the JSON of a packet stamped `INT64_MIN`, with the signature that matches its
fields under the current AppSecret, is decrypted at clock reading 1700000000
with `maxAgeSeconds = 300` to the packet's machine code, not to the empty
string, although the packet's exact age `now - timestamp` is far above 300: the
64-bit subtraction wraps to a negative number, so the age test passes. -/
theorem decryptMachineCode_accepts_wrapped_age (c : Crypto) (S mc nonce enc : Str)
    (hmc : '"' ∉ mc) (hnonce : '"' ∉ nonce)
    (henc : base64Decode c enc =
      SecurePacketCpp.toJson
        { machineCode := mc, timestamp := -9223372036854775808, nonce := nonce,
          signature := generateSignature c S
            (combinedData mc (-9223372036854775808) nonce) (-9223372036854775808) }) :
    decryptMachineCode c S 1700000000 enc 300 = mc
      ∧ ¬ ((1700000000 : Int) - (-9223372036854775808) ≤ 300) := by
  refine ⟨?_, by decide⟩
  have hfrom := fromJson_roundtrip
    { machineCode := mc, timestamp := -9223372036854775808, nonce := nonce,
      signature := generateSignature c S
        (combinedData mc (-9223372036854775808) nonce) (-9223372036854775808) }
    hmc hnonce (quote_not_mem_toHex _)
    (show inInt64 (-9223372036854775808) by decide)
  have hverify : SecurePacketCpp.verify c S 1700000000
      { machineCode := mc, timestamp := -9223372036854775808, nonce := nonce,
        signature := generateSignature c S
          (combinedData mc (-9223372036854775808) nonce) (-9223372036854775808) } 300
      = true := by
    rw [verify_iff_sub64]
    refine ⟨?_, rfl⟩
    show sub64 1700000000 (-9223372036854775808) ≤ 300
    decide
  rw [decryptMachineCode_eq, henc, hfrom]
  simp only [hverify, if_true]

/-- C7 at the failing input with concrete collaborators: the machine code
`ABC123` comes back, and it is not the empty string. -/
theorem decryptMachineCode_accepts_wrapped_age_witness :
    decryptMachineCode sampleCrypto sampleSecret 1700000000
        (base64Encode sampleCrypto (SecurePacketCpp.toJson
          { machineCode := "ABC123".toList, timestamp := -9223372036854775808,
            nonce := "n".toList,
            signature := generateSignature sampleCrypto sampleSecret
              (combinedData "ABC123".toList (-9223372036854775808) "n".toList)
              (-9223372036854775808) })) 300
      = "ABC123".toList
      ∧ "ABC123".toList ≠ ([] : Str) :=
  ⟨(decryptMachineCode_accepts_wrapped_age sampleCrypto sampleSecret "ABC123".toList
      "n".toList _ (by decide) (by decide)
      (sampleCrypto_base64 _ (toJson_ne_nil _))).1, by decide⟩

/-- C15 fails on the code: each of `requestLicense`, `verifyLicense` and
`getLicenseInfo` posts one request to `serverUrl + "/license/request"`,
`"/license/verify"` and `"/license/info"`, and its body is assembled by text
concatenation with the caller's value copied as it is, nothing escaped. For the
user info `x","action":"info` the body of `requestLicense` is the text
`{"secure_packet":"B","user_info":"x","action":"info","action":"request"}`, in
which `user_info` is `x` and `action` occurs twice; for the user info `a\` it is
`{"secure_packet":"B","user_info":"a\","action":"request"}`, in which the
backslash escapes the quote meant to close the value. -/
theorem request_body_not_escaped (c : Crypto) (S : Str) (now : Int)
    (randomBytes : Nat → Byte) (transport : HttpTransport) (client : LicenseClientCpp)
    (machineCode userInfo licenseKey : Str) :
    (client.requestLicense c S now randomBytes transport machineCode userInfo).2 =
        [{ url := client.m_serverUrl ++ "/license/request".toList
           data := "\x7b\"secure_packet\":\"".toList
             ++ base64Encode c (SecurePacketCpp.create c S now randomBytes machineCode).toJson
             ++ "\",\"user_info\":\"".toList ++ userInfo
             ++ "\",\"action\":\"request\"\x7d".toList }]
      ∧ (client.verifyLicense c S now randomBytes transport machineCode licenseKey).2 =
        [{ url := client.m_serverUrl ++ "/license/verify".toList
           data := "\x7b\"secure_packet\":\"".toList
             ++ base64Encode c (SecurePacketCpp.create c S now randomBytes machineCode).toJson
             ++ "\",\"license_key\":\"".toList ++ licenseKey
             ++ "\",\"action\":\"verify\"\x7d".toList }]
      ∧ (client.getLicenseInfo c S now randomBytes transport machineCode).2 =
        [{ url := client.m_serverUrl ++ "/license/info".toList
           data := "\x7b\"secure_packet\":\"".toList
             ++ base64Encode c (SecurePacketCpp.create c S now randomBytes machineCode).toJson
             ++ "\",\"action\":\"info\"\x7d".toList }]
      ∧ (client.requestLicense c S now randomBytes transport machineCode quotedUserInfo).2 =
        [{ url := client.m_serverUrl ++ "/license/request".toList
           data := "\x7b\"secure_packet\":\"".toList
             ++ base64Encode c (SecurePacketCpp.create c S now randomBytes machineCode).toJson
             ++ "\",\"user_info\":\"x\",\"action\":\"info\",\"action\":\"request\"\x7d".toList }]
      ∧ (client.requestLicense c S now randomBytes transport machineCode "a\\".toList).2 =
        [{ url := client.m_serverUrl ++ "/license/request".toList
           data := "\x7b\"secure_packet\":\"".toList
             ++ base64Encode c (SecurePacketCpp.create c S now randomBytes machineCode).toJson
             ++ "\",\"user_info\":\"a\\\",\"action\":\"request\"\x7d".toList }] := by
  refine ⟨?_, ?_, ?_, ?_, ?_⟩
  · simp [LicenseClientCpp.requestLicense, requestLicenseBody, securePacketBase64]
  · simp [LicenseClientCpp.verifyLicense, verifyLicenseBody, securePacketBase64]
  · simp [LicenseClientCpp.getLicenseInfo, getLicenseInfoBody, securePacketBase64]
  · simp [LicenseClientCpp.requestLicense, requestLicenseBody, securePacketBase64,
      quotedUserInfo]
  · simp [LicenseClientCpp.requestLicense, requestLicenseBody, securePacketBase64]

end ComputerId
